import Mathlib

set_option autoImplicit false

/-!
Shallow embedding of `aws-cloudtrail2plaso.py`, a batch tool that decodes
CloudTrail JSON/JSONL/GZ files, merges them into a deduplicated index keyed
by `eventID`, normalizes each record, and writes size-bounded JSONL output.

Data values are modelled by `JValue`, the JSON fragment produced by Python's
`json.loads` restricted to integer numbers (fractional/exponent literals,
which Python decodes to floats, and lone-surrogate escape sequences are
outside the modelled fragment).
-/

/-- JSON values as decoded by Python `json.loads`, with objects represented
as insertion-ordered association lists (the iteration order of a Python
dict). Numbers are restricted to the integer fragment. -/
inductive JValue : Type where
  | null : JValue
  | bool : Bool → JValue
  | num : Int → JValue
  | str : String → JValue
  | arr : List JValue → JValue
  | obj : List (String × JValue) → JValue

mutual

/-- Python `==` on decoded JSON values: structural, except that Python
booleans compare equal to the integers 1 and 0 (`True == 1`, `False == 0`).
Python dict equality is order-insensitive, but in this program `jeq` is only
ever applied to hashable dict keys (never to dicts), so the structural
clause for `obj` is unreachable there. -/
def jeq : JValue → JValue → Bool
  | .null, .null => true
  | .bool a, .bool b => a == b
  | .bool a, .num n => (a == true && n == 1) || (a == false && n == 0)
  | .num n, .bool a => (a == true && n == 1) || (a == false && n == 0)
  | .num a, .num b => a == b
  | .str a, .str b => a == b
  | .arr a, .arr b => jeqList a b
  | .obj a, .obj b => jeqObj a b
  | _, _ => false

/-- Pointwise `jeq` on lists (Python list equality). -/
def jeqList : List JValue → List JValue → Bool
  | [], [] => true
  | a :: as, b :: bs => jeq a b && jeqList as bs
  | _, _ => false

/-- Pointwise `jeq` on association lists. -/
def jeqObj : List (String × JValue) → List (String × JValue) → Bool
  | [], [] => true
  | (k1, v1) :: as, (k2, v2) :: bs => (k1 == k2) && jeq v1 v2 && jeqObj as bs
  | _, _ => false

end

/-- `kvs[key]` on the entry list of a decoded JSON object: first entry whose
key equals `key` (a decoded Python dict has unique keys). -/
def lookupOpt : List (String × JValue) → String → Option JValue
  | [], _ => none
  | (k, v) :: kvs, key => if k = key then some v else lookupOpt kvs key

/-- Python `d.get(key, dflt)` on the entry list of a decoded JSON object. -/
def lookupD (kvs : List (String × JValue)) (key : String) (dflt : JValue) : JValue :=
  (lookupOpt kvs key).getD dflt

/-- Python `record[key]`: succeeds only when `record` is a dict containing
`key` (otherwise `KeyError`/`TypeError`). -/
def jlookup : JValue → String → Option JValue
  | .obj kvs, key => lookupOpt kvs key
  | _, _ => none

/-- Whether a value may be used as a Python dict key (lists and dicts are
unhashable and raise `TypeError`). -/
def jhashable : JValue → Bool
  | .arr _ => false
  | .obj _ => false
  | _ => true

/-- Whether the Python dict `d` (insertion-ordered association list) contains
key `k`, under Python equality. -/
def containsKey (d : List (JValue × JValue)) (k : JValue) : Bool :=
  d.any (fun p => jeq p.1 k)

/-- Python `d[k] = v` on an insertion-ordered dict: an existing entry keeps
its position (and its original key object) and gets the new value; a fresh
key is appended at the end. -/
def dictInsert (d : List (JValue × JValue)) (k : JValue) (v : JValue) :
    List (JValue × JValue) :=
  if containsKey d k then d.map (fun p => if jeq p.1 k then (p.1, v) else p)
  else d ++ [(k, v)]

/-- Dict lookup on the model dict: value of the first (hence only) entry
whose key compares `jeq`-equal to `k`. -/
def lookupJ (d : List (JValue × JValue)) (k : JValue) : Option JValue :=
  (d.find? (fun p => jeq p.1 k)).map Prod.snd

/-- The inner loop of `read_files_from_directory` (line 64-65 of the source):
`for record in records: all_records[record['eventID']] = record`.
A record without an `eventID` key raises `KeyError` (`none`); an unhashable
`eventID` raises `TypeError` (`none`). -/
def processRecords (d : List (JValue × JValue)) : List JValue → Option (List (JValue × JValue))
  | [] => some d
  | r :: rs =>
    match jlookup r "eventID" with
    | none => none
    | some k => if jhashable k then processRecords (dictInsert d k r) rs else none

/-- The per-file loop of `read_files_from_directory`: fold each decoded
file's record list into the dict, accumulating `total_records`. -/
def aggFiles (d : List (JValue × JValue)) (total : Nat) :
    List (List JValue) → Option (List (JValue × JValue) × Nat)
  | [] => some (d, total)
  | f :: fs =>
    match processRecords d f with
    | none => none
    | some d2 => aggFiles d2 (total + f.length) fs

/-- `read_files_from_directory`, modelled from the point where each file has
been decoded into its record list (the lists appear in directory-traversal
order). Returns the RecordIndex together with the reported counters
`(total_records, unique_records, duplicates_removed)`. -/
def read_files_from_directory (files : List (List JValue)) :
    Option (List (JValue × JValue) × Nat × Nat × Nat) :=
  (aggFiles [] 0 files).map (fun p => (p.1, p.2, p.1.length, p.2 - p.1.length))

/-- The record sequence the aggregator hands to the normalizer:
`list(all_records.values())`. -/
def recordsOut (d : List (JValue × JValue)) : List JValue :=
  d.map Prod.snd

/-- The `eventID` values of a record sequence, in order. -/
def recordKeys (rs : List JValue) : List JValue :=
  rs.filterMap (fun r => jlookup r "eventID")

/-- Whether a record carries a string `eventID` (the shape CloudTrail data
always has; the dedup theorems are stated under this hypothesis because
Python compares string dict keys structurally). -/
def hasStrKey (r : JValue) : Bool :=
  match jlookup r "eventID" with
  | some (.str _) => true
  | _ => false

/-- Whether every key of the model dict is a string. -/
def allStrIndex (d : List (JValue × JValue)) : Bool :=
  d.all (fun p => match p.1 with | .str _ => true | _ => false)

/-- One step of first-occurrence key accumulation. -/
def firstKeysStep (acc : List JValue) (k : JValue) : List JValue :=
  if acc.any (fun a => jeq a k) then acc else acc ++ [k]

/-- The distinct keys of a key sequence, in order of first occurrence. -/
def firstKeys (ks : List JValue) : List JValue :=
  ks.foldl firstKeysStep []

/-- Whether a record's `eventID` compares Python-equal to `k`. -/
def keyMatches (k : JValue) (r : JValue) : Bool :=
  match jlookup r "eventID" with
  | some k2 => jeq k2 k
  | none => false

/-- Lowercase hexadecimal digit. -/
def hexDigit (n : Nat) : Char :=
  if n < 10 then Char.ofNat (48 + n) else Char.ofNat (87 + n)

/-- A `\\uXXXX` escape for one UTF-16 code unit. -/
def uEscape4 (n : Nat) : List Char :=
  ['\\', 'u', hexDigit ((n / 4096) % 16), hexDigit ((n / 256) % 16),
   hexDigit ((n / 16) % 16), hexDigit (n % 16)]

/-- `json.dumps` escaping of one character under the default
`ensure_ascii=True`: quote, backslash and the control characters
b/t/n/f/r get two-character escapes, every other character outside
printable ASCII `0x20..0x7e` becomes `\\uXXXX` (a surrogate pair beyond
the BMP), and printable ASCII stays literal. -/
def jsonEscapeChar (c : Char) : List Char :=
  if c = '"' then ['\\', '"']
  else if c = '\\' then ['\\', '\\']
  else if c = '\n' then ['\\', 'n']
  else if c = '\t' then ['\\', 't']
  else if c = '\r' then ['\\', 'r']
  else if c.toNat = 8 then ['\\', 'b']
  else if c.toNat = 12 then ['\\', 'f']
  else if c.toNat < 32 || c.toNat > 126 then
    if c.toNat <= 65535 then uEscape4 c.toNat
    else uEscape4 (55296 + (c.toNat - 65536) / 1024) ++
         uEscape4 (56320 + (c.toNat - 65536) % 1024)
  else [c]

/-- `json.dumps` of a string value. -/
def jsonDumpsStr (s : String) : String :=
  String.mk ('"' :: ((s.data.map jsonEscapeChar).flatten ++ ['"']))

mutual

/-- Python `json.dumps` with default arguments on the modelled JSON
fragment: separators `", "` and `": "`, `ensure_ascii=True`, object keys
in dict (insertion) order, `True`/`False`/`None` rendered as JSON
literals. -/
def pyJsonDumps : JValue → String
  | .null => "null"
  | .bool true => "true"
  | .bool false => "false"
  | .num n => toString n
  | .str s => jsonDumpsStr s
  | .arr l => "[" ++ pyJsonDumpsList l ++ "]"
  | .obj kvs => "\x7b" ++ pyJsonDumpsObj kvs ++ "\x7d"

/-- Comma-separated `json.dumps` of array elements. -/
def pyJsonDumpsList : List JValue → String
  | [] => ""
  | [v] => pyJsonDumps v
  | v :: vs => pyJsonDumps v ++ ", " ++ pyJsonDumpsList vs

/-- Comma-separated `json.dumps` of object entries. -/
def pyJsonDumpsObj : List (String × JValue) → String
  | [] => ""
  | [(k, v)] => jsonDumpsStr k ++ ": " ++ pyJsonDumps v
  | (k, v) :: kvs => jsonDumpsStr k ++ ": " ++ pyJsonDumps v ++ ", " ++ pyJsonDumpsObj kvs

end

/-- The serialized line the writer emits for one event:
`json.dumps(event) + '\n'`. -/
def eventLine (ev : JValue) : String :=
  pyJsonDumps ev ++ "\n"

/-- POSIX `os.path.dirname` (faithful port of `posixpath.dirname`): the
prefix up to and including the last slash; if that prefix is nonempty and
not made only of slashes, trailing slashes are stripped. -/
def osPathDirname (p : String) : String :=
  let head := (p.data.reverse.dropWhile (fun c => c != '/')).reverse
  if head ≠ [] ∧ ¬ (head.all (fun c => c = '/')) then
    String.mk ((head.reverse.dropWhile (fun c => c = '/')).reverse)
  else String.mk head

/-- The loop of `write_events_to_jsonl` (source lines 115-136): before each
event, when `line_count %% 500000 == 0` the current file is closed and file
`file_index+1` is opened (named with a `_part` suffix only when
`multiple_files`); then `json.dumps(event) + '\n'` is written.  The state
is the open file (name, written lines) and the closed files in order; at
the end the open file is closed and appended. -/
def writeLoop (mult : Bool) (base : String) (fileIndex lineCount : Nat)
    (cur : Option (String × List String)) (closed : List (String × List String)) :
    List JValue → List (String × List String)
  | [] => closed ++ cur.toList
  | ev :: evs =>
    if lineCount % 500000 = 0 then
      writeLoop mult base (fileIndex + 1) (lineCount + 1)
        (some ((if mult then base ++ "_part" ++ toString (fileIndex + 1) else base),
          [eventLine ev])) (closed ++ cur.toList) evs
    else
      writeLoop mult base fileIndex (lineCount + 1)
        (cur.map (fun f => (f.1, f.2 ++ [eventLine ev]))) closed evs

/-- `write_events_to_jsonl`: `os.makedirs(os.path.dirname(path),
exist_ok=True)` raises `FileNotFoundError` when the dirname is the empty
string (bare filename); the filesystem is otherwise idealized (directory
creation succeeds, opens succeed and truncate).  Returns the written files
in the order they were opened, each with its written lines. -/
def write_events_to_jsonl (events : List JValue) (output_filepath : String) :
    Option (List (String × List String)) :=
  if osPathDirname output_filepath = "" then none
  else some (writeLoop (decide (events.length > 500000)) output_filepath 0 0 none [] events)

/-- Name of the writer's `i`-th output file (1-based): `_part` suffix only
in multi-file mode. -/
def chunkName (mult : Bool) (base : String) (i : Nat) : String :=
  if mult then base ++ "_part" ++ toString i else base

/-- Expected chunk layout: successive files of at most 500000 serialized
events, numbered from `i`. -/
def chunkFiles (mult : Bool) (base : String) (i : Nat) (l : List JValue) :
    List (String × List String) :=
  match l with
  | [] => []
  | ev :: evs =>
    (chunkName mult base i, ((ev :: evs).take 500000).map eventLine) ::
      chunkFiles mult base (i + 1) ((ev :: evs).drop 500000)
termination_by l.length
decreasing_by
  simp only [List.length_drop, List.length_cons]
  omega

/-- ASCII digit test (`\\d` in the `_strptime` regex; same as
`Char.isDigit`). -/
def isDig (c : Char) : Bool :=
  48 ≤ c.toNat && c.toNat ≤ 57

/-- Numeric value of an ASCII digit character. -/
def digVal (c : Char) : Nat :=
  c.toNat - 48

/-- The fields `datetime.strptime` extracts for the format
`%Y-%m-%dT%H:%M:%SZ`. -/
structure TimeFields where
  year : Nat
  month : Nat
  day : Nat
  hour : Nat
  minute : Nat
  second : Nat
deriving DecidableEq

/-- End of the `_strptime` match: the whole input must be consumed
("unconverted data remains" otherwise). -/
def spEnd (y mo d h mi sec : Nat) : List Char → Option TimeFields
  | [] => some ⟨y, mo, d, h, mi, sec⟩
  | _ :: _ => none

/-- Literal `Z`: `_strptime` compiles the format with `re.IGNORECASE`, so
`z` (0x7a) also matches `Z` (0x5a). -/
def litZ : List Char → Option (List Char)
  | x :: rest => if x.toNat == 90 || x.toNat == 122 then some rest else none
  | [] => none

/-- Literal `T` under `re.IGNORECASE` (`T` 0x54 or `t` 0x74). -/
def litT : List Char → Option (List Char)
  | x :: rest => if x.toNat == 84 || x.toNat == 116 then some rest else none
  | [] => none

/-- Literal `-` (0x2d). -/
def litDash : List Char → Option (List Char)
  | x :: rest => if x.toNat == 45 then some rest else none
  | [] => none

/-- Literal `:` (0x3a). -/
def litColon : List Char → Option (List Char)
  | x :: rest => if x.toNat == 58 then some rest else none
  | [] => none

/-- After `%S`: literal `Z` then end of input. -/
def spZ (y mo d h mi sec : Nat) (s : List Char) : Option TimeFields :=
  (litZ s).bind (spEnd y mo d h mi sec)

/-- `%S` = `(6[0-1]|[0-5]\\d|\\d)`, regex alternation with backtracking
into the rest of the pattern (`<|>` over the continuation). -/
def spSec (y mo d h mi : Nat) : List Char → Option TimeFields
  | c1 :: c2 :: rest =>
    (if c1.toNat == 54 && (c2.toNat == 48 || c2.toNat == 49) then
      spZ y mo d h mi (10 * digVal c1 + digVal c2) rest else none) <|>
    (if (48 ≤ c1.toNat && c1.toNat ≤ 53) && isDig c2 then
      spZ y mo d h mi (10 * digVal c1 + digVal c2) rest else none) <|>
    (if isDig c1 then spZ y mo d h mi (digVal c1) (c2 :: rest) else none)
  | [c1] => if isDig c1 then spZ y mo d h mi (digVal c1) [] else none
  | [] => none

/-- After `%M`: literal `:` then `%S`. -/
def spColonSec (y mo d h mi : Nat) (s : List Char) : Option TimeFields :=
  (litColon s).bind (spSec y mo d h mi)

/-- `%M` = `([0-5]\\d|\\d)`. -/
def spMin (y mo d h : Nat) : List Char → Option TimeFields
  | c1 :: c2 :: rest =>
    (if (48 ≤ c1.toNat && c1.toNat ≤ 53) && isDig c2 then
      spColonSec y mo d h (10 * digVal c1 + digVal c2) rest else none) <|>
    (if isDig c1 then spColonSec y mo d h (digVal c1) (c2 :: rest) else none)
  | [c1] => if isDig c1 then spColonSec y mo d h (digVal c1) [] else none
  | [] => none

/-- After `%H`: literal `:` then `%M`. -/
def spColonMin (y mo d h : Nat) (s : List Char) : Option TimeFields :=
  (litColon s).bind (spMin y mo d h)

/-- `%H` = `(2[0-3]|[0-1]\\d|\\d)`. -/
def spHour (y mo d : Nat) : List Char → Option TimeFields
  | c1 :: c2 :: rest =>
    (if c1.toNat == 50 && (48 ≤ c2.toNat && c2.toNat ≤ 51) then
      spColonMin y mo d (10 * digVal c1 + digVal c2) rest else none) <|>
    (if (c1.toNat == 48 || c1.toNat == 49) && isDig c2 then
      spColonMin y mo d (10 * digVal c1 + digVal c2) rest else none) <|>
    (if isDig c1 then spColonMin y mo d (digVal c1) (c2 :: rest) else none)
  | [c1] => if isDig c1 then spColonMin y mo d (digVal c1) [] else none
  | [] => none

/-- After `%d`: literal `T` then `%H`. -/
def spTHour (y mo d : Nat) (s : List Char) : Option TimeFields :=
  (litT s).bind (spHour y mo d)

/-- `%d` = `(3[01]|[12]\\d|0[1-9]|[1-9])`. -/
def spDay (y mo : Nat) : List Char → Option TimeFields
  | c1 :: c2 :: rest =>
    (if c1.toNat == 51 && (c2.toNat == 48 || c2.toNat == 49) then
      spTHour y mo (10 * digVal c1 + digVal c2) rest else none) <|>
    (if (c1.toNat == 49 || c1.toNat == 50) && isDig c2 then
      spTHour y mo (10 * digVal c1 + digVal c2) rest else none) <|>
    (if c1.toNat == 48 && (49 ≤ c2.toNat && c2.toNat ≤ 57) then
      spTHour y mo (digVal c2) rest else none) <|>
    (if 49 ≤ c1.toNat && c1.toNat ≤ 57 then spTHour y mo (digVal c1) (c2 :: rest) else none)
  | [c1] => if 49 ≤ c1.toNat && c1.toNat ≤ 57 then spTHour y mo (digVal c1) [] else none
  | [] => none

/-- After `%m`: literal `-` then `%d`. -/
def spDashDay (y mo : Nat) (s : List Char) : Option TimeFields :=
  (litDash s).bind (spDay y mo)

/-- `%m` = `(1[0-2]|0[1-9]|[1-9])`. -/
def spMonth (y : Nat) : List Char → Option TimeFields
  | c1 :: c2 :: rest =>
    (if c1.toNat == 49 && (48 ≤ c2.toNat && c2.toNat ≤ 50) then
      spDashDay y (10 + digVal c2) rest else none) <|>
    (if c1.toNat == 48 && (49 ≤ c2.toNat && c2.toNat ≤ 57) then
      spDashDay y (digVal c2) rest else none) <|>
    (if 49 ≤ c1.toNat && c1.toNat ≤ 57 then spDashDay y (digVal c1) (c2 :: rest) else none)
  | [c1] => if 49 ≤ c1.toNat && c1.toNat ≤ 57 then spDashDay y (digVal c1) [] else none
  | [] => none

/-- After `%Y`: literal `-` then `%m`. -/
def spDashMonth (y : Nat) (s : List Char) : Option TimeFields :=
  (litDash s).bind (spMonth y)

/-- `%Y` = `\\d\\d\\d\\d` (exactly four digits). -/
def spYear : List Char → Option TimeFields
  | c1 :: c2 :: c3 :: c4 :: rest =>
    if isDig c1 && isDig c2 && isDig c3 && isDig c4 then
      spDashMonth (1000 * digVal c1 + 100 * digVal c2 + 10 * digVal c3 + digVal c4) rest
    else none
  | _ => none

/-- `datetime.strptime(s, "%Y-%m-%dT%H:%M:%SZ")`, pattern step: the
`_strptime` regex for this format, anchored at the start with a full-match
check. -/
def strptimeFields (s : String) : Option TimeFields :=
  spYear s.data

/-- Leap year (proleptic Gregorian, as `datetime` uses). -/
def isLeap (y : Nat) : Bool :=
  (y % 4 == 0 && y % 100 != 0) || y % 400 == 0

/-- Days in a month. -/
def daysInMonth (y mo : Nat) : Nat :=
  if mo = 2 then (if isLeap y then 29 else 28)
  else if mo = 4 ∨ mo = 6 ∨ mo = 9 ∨ mo = 11 then 30
  else 31

/-- The `datetime` constructor's remaining range checks on the parsed
fields: `MINYEAR ≤ year`, a valid day of month, `second ≤ 59` (the regex
admits the leap seconds 60 and 61, which the constructor rejects; month,
hour and minute are already constrained by the regex). -/
def validFields (t : TimeFields) : Bool :=
  decide (1 ≤ t.year) && decide (1 ≤ t.day) &&
    decide (t.day ≤ daysInMonth t.year t.month) && decide (t.second ≤ 59)

/-- `"%02d"` rendering. -/
def pad2 (n : Nat) : String :=
  String.mk [Char.ofNat (48 + n / 10 % 10), Char.ofNat (48 + n % 10)]

/-- `"%04d"` rendering (years parsed here always have four digits). -/
def pad4 (n : Nat) : String :=
  String.mk [Char.ofNat (48 + n / 1000 % 10), Char.ofNat (48 + n / 100 % 10),
    Char.ofNat (48 + n / 10 % 10), Char.ofNat (48 + n % 10)]

/-- `convert_event_time_to_local`: `strptime` with the fixed format, attach
UTC, then `isoformat()` — which renders `YYYY-MM-DDTHH:MM:SS+00:00` for a
whole-second UTC datetime — with the single `T` replaced by a space, the
trailing `+00:00` cut by `[:-6]`, and `+00:00` appended again.  A parse or
constructor failure is a `ValueError` (the spec's `TimestampFormatError`),
modelled as `none`. -/
def convert_event_time_to_local (event_time_str : String) : Option String :=
  (strptimeFields event_time_str).bind (fun t =>
    if validFields t then
      some (pad4 t.year ++ "-" ++ pad2 t.month ++ "-" ++ pad2 t.day ++ " " ++
        pad2 t.hour ++ ":" ++ pad2 t.minute ++ ":" ++ pad2 t.second ++ "+00:00")
    else none)

/-- The spec's fixed input format `YYYY-MM-DDTHH:MM:SSZ`, zero-padded. -/
def strictTimestamp (y mo d h mi sec : Nat) : String :=
  pad4 y ++ "-" ++ pad2 mo ++ "-" ++ pad2 d ++ "T" ++ pad2 h ++ ":" ++ pad2 mi ++ ":" ++
    pad2 sec ++ "Z"

/-- The spec's required output rendering `YYYY-MM-DD HH:MM:SS+00:00`. -/
def renderedTimestamp (y mo d h mi sec : Nat) : String :=
  pad4 y ++ "-" ++ pad2 mo ++ "-" ++ pad2 d ++ " " ++ pad2 h ++ ":" ++ pad2 mi ++ ":" ++
    pad2 sec ++ "+00:00"

/-- JSON whitespace (RFC 8259, as CPython's scanner skips): space, tab,
newline, carriage return. -/
def isJsonWs (c : Char) : Bool :=
  c == ' ' || c == '\t' || c == '\n' || c == '\r'

/-- Skip JSON whitespace. -/
def skipWs (l : List Char) : List Char :=
  l.dropWhile isJsonWs

/-- Hexadecimal digit value for `\\uXXXX` escapes. -/
def hexVal (c : Char) : Option Nat :=
  if 48 ≤ c.toNat && c.toNat ≤ 57 then some (c.toNat - 48)
  else if 97 ≤ c.toNat && c.toNat ≤ 102 then some (c.toNat - 87)
  else if 65 ≤ c.toNat && c.toNat ≤ 70 then some (c.toNat - 55)
  else none

/-- Body of a JSON string after the opening quote: the decoded characters
and the rest after the closing quote.  Python's strict mode rejects raw
control characters below 0x20; recognized escapes are decoded; a
`\\uXXXX` high surrogate must be followed by a low surrogate and the two
combine (a lone surrogate, which Python would keep in the str, has no
Lean `Char` and is outside the modelled fragment). -/
def parseJStr : List Char → Option (List Char × List Char)
  | [] => none
  | c :: rest =>
    if c == '"' then some ([], rest)
    else if c == '\\' then
      match rest with
      | [] => none
      | e :: rest2 =>
        if e == '"' then (parseJStr rest2).map (fun p => ('"' :: p.1, p.2))
        else if e == '\\' then (parseJStr rest2).map (fun p => ('\\' :: p.1, p.2))
        else if e == '/' then (parseJStr rest2).map (fun p => ('/' :: p.1, p.2))
        else if e == 'b' then (parseJStr rest2).map (fun p => (Char.ofNat 8 :: p.1, p.2))
        else if e == 'f' then (parseJStr rest2).map (fun p => (Char.ofNat 12 :: p.1, p.2))
        else if e == 'n' then (parseJStr rest2).map (fun p => ('\n' :: p.1, p.2))
        else if e == 'r' then (parseJStr rest2).map (fun p => ('\r' :: p.1, p.2))
        else if e == 't' then (parseJStr rest2).map (fun p => ('\t' :: p.1, p.2))
        else if e == 'u' then
          match rest2 with
          | h1 :: h2 :: h3 :: h4 :: rest3 =>
            match hexVal h1, hexVal h2, hexVal h3, hexVal h4 with
            | some a, some b, some c2, some d =>
              if 4096 * a + 256 * b + 16 * c2 + d < 55296 ∨
                  57343 < 4096 * a + 256 * b + 16 * c2 + d then
                (parseJStr rest3).map
                  (fun p => (Char.ofNat (4096 * a + 256 * b + 16 * c2 + d) :: p.1, p.2))
              else if 4096 * a + 256 * b + 16 * c2 + d ≤ 56319 then
                match rest3 with
                | '\\' :: 'u' :: g1 :: g2 :: g3 :: g4 :: rest4 =>
                  match hexVal g1, hexVal g2, hexVal g3, hexVal g4 with
                  | some a2, some b2, some c3, some d2 =>
                    if 56320 ≤ 4096 * a2 + 256 * b2 + 16 * c3 + d2 &&
                        4096 * a2 + 256 * b2 + 16 * c3 + d2 ≤ 57343 then
                      (parseJStr rest4).map (fun p =>
                        (Char.ofNat (65536 +
                          1024 * (4096 * a + 256 * b + 16 * c2 + d - 55296) +
                          (4096 * a2 + 256 * b2 + 16 * c3 + d2 - 56320)) :: p.1, p.2))
                    else none
                  | _, _, _, _ => none
                | _ => none
              else none
            | _, _, _, _ => none
          | _ => none
        else none
    else if c.toNat < 32 then none
    else (parseJStr rest).map (fun p => (c :: p.1, p.2))

/-- A maximal run of ASCII digits and the rest. -/
def parseDigits : List Char → (List Char × List Char)
  | [] => ([], [])
  | c :: rest =>
    if isDig c then
      ((c :: (parseDigits rest).1), (parseDigits rest).2)
    else ([], c :: rest)

/-- Value of a digit run. -/
def digitsToNat : List Char → Nat → Nat
  | [], acc => acc
  | c :: rest, acc => digitsToNat rest (10 * acc + digVal c)

/-- Unsigned integer literal: `0` alone, or a nonzero leading digit with a
digit run (leading zeros, as in Python's json, do not extend the match). -/
def parseJNumCore : List Char → Option (Nat × List Char)
  | c :: rest =>
    if c == '0' then some (0, rest)
    else if 49 ≤ c.toNat && c.toNat ≤ 57 then
      some (digitsToNat (c :: (parseDigits rest).1) 0, (parseDigits rest).2)
    else none
  | [] => none

/-- A JSON number.  Only the integer fragment is modelled: a fractional
part or exponent (a Python float) is left unconsumed, so such documents
fail the exact-consumption check rather than producing a float value. -/
def parseJNum : List Char → Option (Int × List Char)
  | '-' :: s1 => (parseJNumCore s1).map (fun p => (-(p.1 : Int), p.2))
  | s => (parseJNumCore s).map (fun p => ((p.1 : Int), p.2))

/-- Python builds each JSON object via `dict(pairs)`: a repeated key keeps
its first position and takes its last value. -/
def objFromPairs (pairs : List (String × JValue)) : List (String × JValue) :=
  pairs.foldl (fun acc kv =>
    if acc.any (fun p => p.1 == kv.1) then
      acc.map (fun p => if p.1 == kv.1 then (p.1, kv.2) else p)
    else acc ++ [kv]) []

mutual

/-- One JSON value of the modelled fragment, as CPython's `json.loads`
grammar reads it.  `fuel` only bounds nesting depth (it decreases once
per bracket consumed), so any fuel beyond the input length is enough. -/
def parseVal : Nat → List Char → Option (JValue × List Char)
  | 0, _ => none
  | _ + 1, [] => none
  | fuel + 1, c :: rest =>
    if c == '"' then (parseJStr rest).map (fun p => (JValue.str (String.mk p.1), p.2))
    else if c == '[' then
      match skipWs rest with
      | ']' :: r2 => some (JValue.arr [], r2)
      | r => (parseArrItems fuel r).map (fun p => (JValue.arr p.1, p.2))
    else if c == '\x7b' then
      match skipWs rest with
      | '\x7d' :: r2 => some (JValue.obj [], r2)
      | r => (parseObjItems fuel r).map (fun p => (JValue.obj (objFromPairs p.1), p.2))
    else if c == 't' then
      match rest with
      | 'r' :: 'u' :: 'e' :: r => some (JValue.bool true, r)
      | _ => none
    else if c == 'f' then
      match rest with
      | 'a' :: 'l' :: 's' :: 'e' :: r => some (JValue.bool false, r)
      | _ => none
    else if c == 'n' then
      match rest with
      | 'u' :: 'l' :: 'l' :: r => some (JValue.null, r)
      | _ => none
    else (parseJNum (c :: rest)).map (fun p => (JValue.num p.1, p.2))

/-- Array items after `[` (nonempty case): value, then `,` and more items
or `]`. -/
def parseArrItems : Nat → List Char → Option (List JValue × List Char)
  | 0, _ => none
  | fuel + 1, s =>
    match parseVal fuel s with
    | none => none
    | some (v, r) =>
      match skipWs r with
      | ',' :: r2 => (parseArrItems fuel (skipWs r2)).map (fun p => (v :: p.1, p.2))
      | ']' :: r2 => some ([v], r2)
      | _ => none

/-- Object entries after `\x7b` (nonempty case): string key, `:`, value,
then `,` and more entries or `\x7d`. -/
def parseObjItems : Nat → List Char → Option (List (String × JValue) × List Char)
  | 0, _ => none
  | fuel + 1, s =>
    match s with
    | '"' :: r0 =>
      match parseJStr r0 with
      | none => none
      | some (kcs, r1) =>
        match skipWs r1 with
        | ':' :: r2 =>
          match parseVal fuel (skipWs r2) with
          | none => none
          | some (v, r3) =>
            match skipWs r3 with
            | ',' :: r4 =>
              (parseObjItems fuel (skipWs r4)).map
                (fun p => ((String.mk kcs, v) :: p.1, p.2))
            | '\x7d' :: r4 => some ([(String.mk kcs, v)], r4)
            | _ => none
        | _ => none
    | _ => none

end

/-- Strip surrounding JSON whitespace. -/
def trimWsBoth (l : List Char) : List Char :=
  ((l.dropWhile isJsonWs).reverse.dropWhile isJsonWs).reverse

/-- The trimmed input must be exactly one JSON value. -/
def jsonLoadsCore (cs : List Char) : Option JValue :=
  match parseVal (cs.length + 1) cs with
  | some (v, []) => some v
  | _ => none

/-- `json.loads`: one JSON value surrounded by optional whitespace and
nothing else.  Implemented as trim-then-exactly-consume, extensionally
the scanner's skip-ws / parse / skip-ws / end-of-input check (whitespace
never extends a JSON token). -/
def jsonLoads (s : String) : Option JValue :=
  jsonLoadsCore (trimWsBoth s.data)

/-- The lines Python file iteration yields: split after each `\n`, each
line keeping its terminator, a final unterminated line yielded as is
(text-mode universal newlines already turned `\r\n` and `\r` into
`\n`). -/
def pyFileLinesAux (acc : List Char) : List Char → List (List Char)
  | [] => if acc.isEmpty then [] else [acc.reverse]
  | c :: cs =>
    if c == '\n' then (acc.reverse ++ ['\n']) :: pyFileLinesAux [] cs
    else pyFileLinesAux (c :: acc) cs

/-- Lines of a text file as `for line in f` yields them. -/
def pyFileLines (content : String) : List String :=
  (pyFileLinesAux [] content.data).map String.mk

/-- The line-break set of `str.splitlines`: `\n`, `\r`, `\v` (0x0b),
`\f` (0x0c), the separators 0x1c-0x1e, NEL 0x85, and U+2028/U+2029. -/
def isSplitlineBreak (c : Char) : Bool :=
  c == '\n' || c == '\r' || c.toNat == 11 || c.toNat == 12 || c.toNat == 28 ||
    c.toNat == 29 || c.toNat == 30 || c.toNat == 133 || c.toNat == 8232 ||
    c.toNat == 8233

/-- `str.splitlines` (keepends=False): terminators are dropped, `\r\n`
counts as a single break, a trailing terminator adds no empty line. -/
def splitlinesAux (acc : List Char) : List Char → List (List Char)
  | [] => if acc.isEmpty then [] else [acc.reverse]
  | '\r' :: '\n' :: cs => acc.reverse :: splitlinesAux [] cs
  | c :: cs =>
    if isSplitlineBreak c then acc.reverse :: splitlinesAux [] cs
    else splitlinesAux (c :: acc) cs

/-- `content.splitlines()`. -/
def pySplitlines (content : String) : List String :=
  (splitlinesAux [] content.data).map String.mk

/-- `json.loads` over a list of lines, failing on the first bad line (the
loop of `read_jsonl_file`, the comprehension of `read_gz_file`). -/
def loadLines : List String → Option (List JValue)
  | [] => some []
  | l :: ls =>
    match jsonLoads l with
    | none => none
    | some v => (loadLines ls).map (fun vs => v :: vs)

/-- `read_jsonl_file` (source lines 24-29): `json.loads` every line the
open file yields; the source wraps the result as `{'Records': records}`
and its caller immediately projects `['Records']`, so the record list is
returned directly. -/
def read_jsonl_file (content : String) : Option (List JValue) :=
  loadLines (pyFileLines content)

/-- The `.jsonl.gz` branch of `read_gz_file` (source line 37):
`[json.loads(line) for line in content.splitlines()]`. -/
def read_gz_jsonl (content : String) : Option (List JValue) :=
  loadLines (pySplitlines content)

/-- `str.endswith(suffix)`. -/
def pyEndsWith (s suffix : String) : Bool :=
  suffix.data.isSuffixOf s.data

/-- `read_gz_file` (source lines 32-40) on the decompressed text, composed
with the caller's `['Records']` projection: the `.jsonl.gz` suffix selects
the line-by-line parse, anything else is one JSON document whose
`Records` entry must be a sequence (a non-sequence would not yield records
downstream). -/
def read_gz_file (file_path : String) (content : String) : Option (List JValue) :=
  if pyEndsWith file_path ".jsonl.gz" then read_gz_jsonl content
  else (jsonLoads content).bind (fun v => (jlookup v "Records").bind (fun r =>
    match r with
    | .arr l => some l
    | _ => none))

/-- One escaped character of Python `repr` for strings, approximated:
backslash, the single quote, `\\n`, `\\r`, `\\t` get escapes (CPython also
switches the quote character when the text holds a single but no double
quote, and hex-escapes other non-printables; no claim depends on those
cases). -/
def reprEsc (c : Char) : List Char :=
  if c == '\\' then ['\\', '\\']
  else if c == '\'' then ['\\', '\'']
  else if c == '\n' then ['\\', 'n']
  else if c == '\r' then ['\\', 'r']
  else if c == '\t' then ['\\', 't']
  else [c]

/-- Python `repr` of a str. -/
def pyReprStr (s : String) : String :=
  String.mk ('\'' :: ((s.data.map reprEsc).flatten ++ ['\'']))

mutual

/-- Python `repr` of a decoded JSON value: `None`/`True`/`False`,
decimal integers, quoted strings, and containers with `", "` and `": "`
separators. -/
def pyRepr : JValue → String
  | .null => "None"
  | .bool true => "True"
  | .bool false => "False"
  | .num n => toString n
  | .str s => pyReprStr s
  | .arr l => "[" ++ pyReprList l ++ "]"
  | .obj kvs => "\x7b" ++ pyReprObj kvs ++ "\x7d"

/-- Comma-separated `repr` of list elements. -/
def pyReprList : List JValue → String
  | [] => ""
  | [v] => pyRepr v
  | v :: vs => pyRepr v ++ ", " ++ pyReprList vs

/-- Comma-separated `repr` of dict entries. -/
def pyReprObj : List (String × JValue) → String
  | [] => ""
  | [(k, v)] => pyReprStr k ++ ": " ++ pyRepr v
  | (k, v) :: kvs => pyReprStr k ++ ": " ++ pyRepr v ++ ", " ++ pyReprObj kvs

end

/-- Python `str()` on a decoded JSON value: a str renders itself, anything
else as its repr. -/
def pyStr : JValue → String
  | .str s => s
  | v => pyRepr v

/-- `str.replace(old, '')` with a one-character `old`: every occurrence
removed. -/
def removeChar (s : String) (c : Char) : String :=
  String.mk (s.data.filter (fun x => !(x == c)))

/-- The `CloudTrailEvent` value (source line 107):
`json.dumps(record).replace('\\n', '').replace('\\t', '').replace(' ', '')`. -/
def squeezeDumps (record : JValue) : String :=
  removeChar (removeChar (removeChar (pyJsonDumps record) '\n') '\t') ' '

/-- The normalized event dict built for each record (source lines 93-108). -/
structure PlasoEvent where
  EventId : JValue
  EventName : JValue
  ReadOnly : String
  AccessKeyId : JValue
  EventTime : String
  EventSource : JValue
  Username : JValue
  Resources : List (JValue × JValue)
  CloudTrailEvent : String

/-- One entry of the `Resources` comprehension (source lines 102-105):
`resource.get` requires the entry to be a dict (`AttributeError`
otherwise); missing `type`/`ARN` keys default to `"Unknown"`.  The pair is
(ResourceType, ResourceName). -/
def convertResource : JValue → Option (JValue × JValue)
  | .obj kvs => some (lookupD kvs "type" (JValue.str "Unknown"),
      lookupD kvs "ARN" (JValue.str "Unknown"))
  | _ => none

/-- One iteration of `convert_cloudtrail_to_plaso` (source lines 89-109):
required fields raise `KeyError` when absent; `eventTime` must be a str
for `strptime`; `userIdentity` must be a dict for `.get`;
`record.get('resources', [])` must be a sequence of dicts; `ReadOnly` is
`str(...).lower()` (ASCII lowering in this model). -/
def convertRecord (record : JValue) : Option PlasoEvent :=
  match jlookup record "eventTime" with
  | some (.str ets) =>
    match convert_event_time_to_local ets with
    | some etLocal =>
      match jlookup record "eventID", jlookup record "eventName",
          jlookup record "readOnly", jlookup record "userIdentity",
          jlookup record "eventSource" with
      | some eid, some ename, some ro, some (.obj uiKvs), some esrc =>
        match (jlookup record "resources").getD (JValue.arr []) with
        | .arr resList =>
          match resList.mapM convertResource with
          | some resPairs =>
            some { EventId := eid, EventName := ename,
                   ReadOnly := (pyStr ro).toLower,
                   AccessKeyId := lookupD uiKvs "accessKeyId" (JValue.str ""),
                   EventTime := etLocal, EventSource := esrc,
                   Username := lookupD uiKvs "userName" (JValue.str ""),
                   Resources := resPairs,
                   CloudTrailEvent := squeezeDumps record }
          | none => none
        | _ => none
      | _, _, _, _, _ => none
    | none => none
  | _ => none

/-- `convert_cloudtrail_to_plaso` over the aggregated record list. -/
def convert_cloudtrail_to_plaso (records : List JValue) : Option (List PlasoEvent) :=
  records.mapM convertRecord

/-! ### Lemmas about Python dict insertion -/

theorem jeq_str_str (a b : String) : jeq (JValue.str a) (JValue.str b) = (a == b) := by
  simp [jeq]

theorem jeq_str_iff {s : String} {k : JValue} :
    jeq (JValue.str s) k = true ↔ k = JValue.str s := by
  cases k <;> simp [jeq]
  exact eq_comm

theorem map_fst_dictInsert (d : List (JValue × JValue)) (k v : JValue) :
    (dictInsert d k v).map Prod.fst =
      if containsKey d k then d.map Prod.fst else d.map Prod.fst ++ [k] := by
  unfold dictInsert
  split
  · rw [List.map_map]
    exact List.map_congr_left fun p _ => by simp only [Function.comp_apply]; split <;> rfl
  · simp

theorem length_dictInsert (d : List (JValue × JValue)) (k v : JValue) :
    (dictInsert d k v).length =
      if containsKey d k then d.length else d.length + 1 := by
  unfold dictInsert
  split <;> simp

theorem allStrIndex_dictInsert (d : List (JValue × JValue)) (s : String) (v : JValue)
    (hd : allStrIndex d = true) : allStrIndex (dictInsert d (JValue.str s) v) = true := by
  unfold dictInsert
  split
  · simp only [allStrIndex, List.all_eq_true] at hd ⊢
    intro p hp
    obtain ⟨q, hq, hqe⟩ := List.mem_map.mp hp
    have := hd q hq
    split at hqe <;> simp [← hqe] at this ⊢ <;> exact this
  · simp only [allStrIndex, List.all_eq_true] at hd ⊢
    intro p hp
    rcases List.mem_append.mp hp with h | h
    · exact hd p h
    · simp at h
      simp [h]

theorem lookupJ_nil (k : JValue) : lookupJ [] k = none := rfl

theorem lookupJ_cons (q : JValue × JValue) (tl : List (JValue × JValue)) (k : JValue) :
    lookupJ (q :: tl) k = if jeq q.1 k then some q.2 else lookupJ tl k := by
  simp only [lookupJ, List.find?]
  cases h : jeq q.1 k <;> simp [h]

theorem containsKey_eq_isSome (d : List (JValue × JValue)) (k : JValue) :
    containsKey d k = (lookupJ d k).isSome := by
  induction d with
  | nil => rfl
  | cons p tl ih =>
    obtain ⟨k1, v1⟩ := p
    rw [lookupJ_cons]
    simp only [containsKey, List.any_cons]
    cases h : jeq k1 k <;> simp [h, containsKey] at ih ⊢ <;> exact ih

theorem lookupJ_replace (d : List (JValue × JValue)) (s : String) (v k : JValue)
    (hd : allStrIndex d = true) :
    lookupJ (d.map (fun p => if jeq p.1 (JValue.str s) then (p.1, v) else p)) k =
      if jeq (JValue.str s) k && containsKey d (JValue.str s) then some v
      else lookupJ d k := by
  induction d with
  | nil => simp [lookupJ, containsKey]
  | cons p tl ih =>
    obtain ⟨k1, v1⟩ := p
    simp only [allStrIndex, List.all_cons, Bool.and_eq_true] at hd
    obtain ⟨hk1, htl⟩ := hd
    have ihtl := ih htl
    obtain ⟨s1, rfl⟩ : ∃ s1, k1 = JValue.str s1 := by
      cases k1 <;> simp_all
    simp only [List.map_cons]
    by_cases hrep : jeq (JValue.str s1) (JValue.str s) = true
    · have hs : s1 = s := by simpa [jeq_str_str] using hrep
      subst hs
      rw [if_pos hrep, lookupJ_cons, lookupJ_cons]
      simp only [containsKey, List.any_cons, hrep, Bool.true_or, Bool.and_true]
      by_cases hk : jeq (JValue.str s1) k = true
      · simp [hk]
      · simp only [Bool.not_eq_true] at hk
        simp only [hk, if_false, Bool.false_and, ihtl, containsKey]
        simp [hk]
    · simp only [Bool.not_eq_true] at hrep
      rw [if_neg (by simp [hrep]), lookupJ_cons, lookupJ_cons]
      simp only [containsKey, List.any_cons, hrep, Bool.false_or]
      by_cases hk : jeq (JValue.str s1) k = true
      · have hks : k = JValue.str s1 := jeq_str_iff.mp hk
        subst hks
        have hss : jeq (JValue.str s) (JValue.str s1) = false := by
          rw [jeq_str_str] at hrep ⊢
          rw [beq_eq_false_iff_ne] at hrep ⊢
          exact fun h => hrep h.symm
        simp [hk, hss]
      · simp only [Bool.not_eq_true] at hk
        simp only [hk, if_false]
        rw [ihtl]
        simp [containsKey]

theorem lookupJ_dictInsert (d : List (JValue × JValue)) (s : String) (v k : JValue)
    (hd : allStrIndex d = true) :
    lookupJ (dictInsert d (JValue.str s) v) k =
      if jeq (JValue.str s) k then some v else lookupJ d k := by
  unfold dictInsert
  split
  next hc =>
    rw [lookupJ_replace d s v k hd, hc]
    simp
  next hc =>
    simp only [Bool.not_eq_true] at hc
    simp only [lookupJ, List.find?_append]
    by_cases hk : jeq (JValue.str s) k = true
    · have hnone : (d.find? fun p => jeq p.1 k) = none := by
        rw [List.find?_eq_none]
        intro p hp hjp
        have : containsKey d (JValue.str s) = true := by
          have hks : k = JValue.str s := jeq_str_iff.mp hk
          subst hks
          exact List.any_eq_true.mpr ⟨p, hp, hjp⟩
        simp [this] at hc
      simp [hnone, List.find?, hk]
    · simp only [Bool.not_eq_true] at hk
      cases hfind : (d.find? fun p => jeq p.1 k) <;> simp [hfind, List.find?, hk]

theorem pairwise_keys_dictInsert (d : List (JValue × JValue)) (k v : JValue)
    (h : (d.map Prod.fst).Pairwise (fun a b => jeq a b = false)) :
    ((dictInsert d k v).map Prod.fst).Pairwise (fun a b => jeq a b = false) := by
  rw [map_fst_dictInsert]
  split
  next hc => exact h
  next hc =>
    simp only [Bool.not_eq_true] at hc
    rw [List.pairwise_append]
    refine ⟨h, List.pairwise_singleton _ _, ?_⟩
    intro a ha b hb
    simp only [List.mem_singleton] at hb
    obtain ⟨p, hp, rfl⟩ := List.mem_map.mp ha
    by_contra hcon
    simp only [Bool.not_eq_false] at hcon
    rw [hb] at hcon
    have : containsKey d k = true := List.any_eq_true.mpr ⟨p, hp, hcon⟩
    rw [this] at hc
    exact absurd hc (by simp)

/-! ### Lemmas about the aggregation loop -/

theorem processRecords_append (d : List (JValue × JValue)) (a b : List JValue) :
    processRecords d (a ++ b) = (processRecords d a).bind (fun d2 => processRecords d2 b) := by
  induction a generalizing d with
  | nil => simp [processRecords]
  | cons r rs ih =>
    simp only [List.cons_append, processRecords]
    cases jlookup r "eventID" with
    | none => rfl
    | some key =>
      simp only
      split
      · exact ih _
      · rfl

theorem allStrIndex_processRecords (rs : List JValue) (d d2 : List (JValue × JValue))
    (hd : allStrIndex d = true) (hr : rs.all hasStrKey = true)
    (h : processRecords d rs = some d2) : allStrIndex d2 = true := by
  induction rs generalizing d with
  | nil => simp [processRecords] at h; rwa [← h]
  | cons r rest ih =>
    simp only [List.all_cons, Bool.and_eq_true] at hr
    obtain ⟨hr1, hrest⟩ := hr
    simp only [processRecords] at h
    unfold hasStrKey at hr1
    cases hjl : jlookup r "eventID" with
    | none => rw [hjl] at h; exact absurd h (by simp)
    | some key =>
      rw [hjl] at h hr1
      obtain ⟨s, rfl⟩ : ∃ s, key = JValue.str s := by
        cases key <;> simp_all
      simp only [jhashable, if_true] at h
      exact ih (dictInsert d (JValue.str s) r) (allStrIndex_dictInsert d s r hd) hrest h

theorem getLast?_cons_or {α : Type} (a : α) (l : List α) :
    (a :: l).getLast? = l.getLast?.or (some a) := by
  cases l with
  | nil => simp
  | cons b t =>
    rw [List.getLast?_cons_cons]
    cases h2 : (b :: t).getLast? with
    | none => rw [List.getLast?_eq_none_iff] at h2; exact absurd h2 (by simp)
    | some c => simp

theorem containsKey_eq_any_map (d : List (JValue × JValue)) (k : JValue) :
    containsKey d k = (d.map Prod.fst).any (fun a => jeq a k) := by
  induction d with
  | nil => rfl
  | cons p tl ih =>
    simp only [List.map_cons, List.any_cons]
    rw [show containsKey (p :: tl) k = (jeq p.1 k || containsKey tl k) from rfl, ih]

theorem processRecords_cons_some (d : List (JValue × JValue)) (r : JValue) (rs : List JValue)
    {key : JValue} (hjl : jlookup r "eventID" = some key) :
    processRecords d (r :: rs) =
      if jhashable key then processRecords (dictInsert d key r) rs else none := by
  simp [processRecords, hjl]

theorem processRecords_cons_none (d : List (JValue × JValue)) (r : JValue) (rs : List JValue)
    (hjl : jlookup r "eventID" = none) :
    processRecords d (r :: rs) = none := by
  simp [processRecords, hjl]

theorem map_fst_processRecords (rs : List JValue) (d d2 : List (JValue × JValue))
    (h : processRecords d rs = some d2) :
    d2.map Prod.fst = (recordKeys rs).foldl firstKeysStep (d.map Prod.fst) := by
  induction rs generalizing d with
  | nil =>
    simp only [processRecords, Option.some.injEq] at h
    rw [← h]
    simp [recordKeys]
  | cons r rest ih =>
    cases hjl : jlookup r "eventID" with
    | none => rw [processRecords_cons_none d r rest hjl] at h; exact absurd h (by simp)
    | some key =>
      rw [processRecords_cons_some d r rest hjl] at h
      by_cases hh : jhashable key = true
      · rw [if_pos hh] at h
        rw [ih (dictInsert d key r) h]
        simp only [recordKeys, List.filterMap_cons, hjl, List.foldl_cons]
        congr 1
        rw [map_fst_dictInsert, firstKeysStep, containsKey_eq_any_map]
      · rw [if_neg hh] at h; exact absurd h (by simp)

theorem lookupJ_processRecords (rs : List JValue) (d d2 : List (JValue × JValue)) (k : JValue)
    (hd : allStrIndex d = true) (hr : rs.all hasStrKey = true)
    (h : processRecords d rs = some d2) :
    lookupJ d2 k = ((rs.filter (keyMatches k)).getLast?).or (lookupJ d k) := by
  induction rs generalizing d with
  | nil =>
    simp only [processRecords, Option.some.injEq] at h
    rw [← h]
    simp
  | cons r rest ih =>
    simp only [List.all_cons, Bool.and_eq_true] at hr
    obtain ⟨hr1, hrest⟩ := hr
    simp only [processRecords] at h
    cases hjl : jlookup r "eventID" with
    | none => rw [hjl] at h; exact absurd h (by simp)
    | some key =>
      rw [hjl] at h
      obtain ⟨s, rfl⟩ : ∃ s, key = JValue.str s := by
        unfold hasStrKey at hr1
        rw [hjl] at hr1
        cases key <;> simp_all
      simp only [jhashable, if_true] at h
      have ihd := ih (dictInsert d (JValue.str s) r)
        (allStrIndex_dictInsert d s r hd) hrest h
      rw [ihd, lookupJ_dictInsert d s r k hd]
      have hmatch : keyMatches k r = jeq (JValue.str s) k := by
        unfold keyMatches
        rw [hjl]
      by_cases hm : jeq (JValue.str s) k = true
      · rw [List.filter_cons_of_pos (by rw [hmatch]; exact hm)]
        rw [if_pos hm, getLast?_cons_or]
        cases hlast : (rest.filter (keyMatches k)).getLast? <;> simp [hlast]
      · simp only [Bool.not_eq_true] at hm
        rw [List.filter_cons_of_neg (by rw [hmatch, hm]; simp)]
        rw [hm]
        simp

theorem length_processRecords (rs : List JValue) (d d2 : List (JValue × JValue))
    (h : processRecords d rs = some d2) :
    d.length ≤ d2.length ∧ d2.length ≤ d.length + rs.length := by
  induction rs generalizing d with
  | nil =>
    simp only [processRecords, Option.some.injEq] at h
    rw [← h]
    simp
  | cons r rest ih =>
    cases hjl : jlookup r "eventID" with
    | none => rw [processRecords_cons_none d r rest hjl] at h; exact absurd h (by simp)
    | some key =>
      rw [processRecords_cons_some d r rest hjl] at h
      by_cases hh : jhashable key = true
      · rw [if_pos hh] at h
        have := ih (dictInsert d key r) h
        have hlen := length_dictInsert d key r
        rw [List.length_cons]
        constructor
        · refine le_trans ?_ this.1
          rw [hlen]
          split <;> omega
        · refine le_trans this.2 ?_
          rw [hlen]
          split <;> omega
      · rw [if_neg hh] at h; exact absurd h (by simp)

theorem pairwise_keys_processRecords (rs : List JValue) (d d2 : List (JValue × JValue))
    (hp : (d.map Prod.fst).Pairwise (fun a b => jeq a b = false))
    (h : processRecords d rs = some d2) :
    (d2.map Prod.fst).Pairwise (fun a b => jeq a b = false) := by
  induction rs generalizing d with
  | nil =>
    simp only [processRecords, Option.some.injEq] at h
    rw [← h]
    exact hp
  | cons r rest ih =>
    cases hjl : jlookup r "eventID" with
    | none => rw [processRecords_cons_none d r rest hjl] at h; exact absurd h (by simp)
    | some key =>
      rw [processRecords_cons_some d r rest hjl] at h
      by_cases hh : jhashable key = true
      · rw [if_pos hh] at h
        exact ih (dictInsert d key r) (pairwise_keys_dictInsert d key r hp) h
      · rw [if_neg hh] at h; exact absurd h (by simp)

theorem aggFiles_eq_join (files : List (List JValue)) (d : List (JValue × JValue)) (t : Nat) :
    aggFiles d t files =
      (processRecords d files.flatten).map (fun d2 => (d2, t + files.flatten.length)) := by
  induction files generalizing d t with
  | nil => simp [aggFiles, processRecords]
  | cons f fs ih =>
    simp only [aggFiles, List.flatten_cons]
    rw [processRecords_append]
    cases hf : processRecords d f with
    | none => simp
    | some d2 =>
      simp only [Option.some_bind]
      rw [ih d2 (t + f.length)]
      congr 1
      funext d3
      simp only [List.length_append, Prod.mk.injEq, true_and]
      omega

theorem lookupJ_self (d : List (JValue × JValue))
    (hd : allStrIndex d = true)
    (hp : (d.map Prod.fst).Pairwise (fun a b => jeq a b = false)) :
    ∀ p ∈ d, lookupJ d p.1 = some p.2 := by
  induction d with
  | nil => intro p hmem; exact absurd hmem (by simp)
  | cons q tl ih =>
    intro p hmem
    simp only [allStrIndex, List.all_cons, Bool.and_eq_true] at hd
    obtain ⟨hq, htl⟩ := hd
    rw [List.map_cons, List.pairwise_cons] at hp
    obtain ⟨hq2, htl2⟩ := hp
    rcases List.mem_cons.mp hmem with heq | hmem2
    · obtain ⟨s, hs⟩ : ∃ s, q.1 = JValue.str s := by
        cases hc : q.1 <;> rw [hc] at hq <;> simp_all
      rw [heq, lookupJ_cons]
      have hrefl : jeq q.1 q.1 = true := by rw [hs, jeq_str_str]; simp
      rw [hrefl]
      simp
    · rw [lookupJ_cons]
      have hne : jeq q.1 p.1 = false := hq2 p.1 (List.mem_map.mpr ⟨p, hmem2, rfl⟩)
      rw [hne]
      simp only [Bool.false_eq_true, if_false]
      exact ih htl htl2 p hmem2

/-! ### Claim theorems: aggregation (C1, C2) -/

/-- C1: Dedup correctness of aggregation.  For every sequence of decoded
per-file record lists whose records carry string `eventID`s, the
RecordIndex built by `read_files_from_directory` has pairwise
non-equal keys (exactly one entry per event identifier); the entry
retained for any key is the record with that `eventID` processed last in
traversal order; and the reported counters satisfy
`unique_records + duplicates_removed = total_records_seen`, with
`total_records_seen` the number of decoded records. -/
theorem dedup_correctness (files : List (List JValue))
    (d : List (JValue × JValue)) (total unique dups : Nat)
    (hks : files.flatten.all hasStrKey = true)
    (h : read_files_from_directory files = some (d, total, unique, dups)) :
    ((d.map Prod.fst).Pairwise (fun a b => jeq a b = false)) ∧
    (∀ k, lookupJ d k = (files.flatten.filter (keyMatches k)).getLast?) ∧
    unique + dups = total ∧ unique ≤ total ∧ total = files.flatten.length := by
  unfold read_files_from_directory at h
  rw [aggFiles_eq_join] at h
  cases hpr : processRecords [] files.flatten with
  | none => rw [hpr] at h; exact absurd h (by simp)
  | some d2 =>
    rw [hpr] at h
    simp only [Option.map_some', Option.some.injEq, Prod.mk.injEq] at h
    obtain ⟨rfl, htot, huni, hdup⟩ := h
    have hlen := length_processRecords files.flatten [] d2 hpr
    simp only [List.length_nil] at hlen
    refine ⟨?_, ?_, ?_, ?_, ?_⟩
    · exact pairwise_keys_processRecords files.flatten [] d2 (by simp) hpr
    · intro k
      have := lookupJ_processRecords files.flatten [] d2 k rfl hks hpr
      rw [this, lookupJ_nil, Option.or_none]
    · omega
    · omega
    · omega

/-- Witness for C1 at a concrete input: two files, three records, one
duplicated `eventID` `"a"`; the retained entry for `"a"` is the last
matching record and `2 + 1 = 3`. -/
theorem dedup_correctness_witness :
    lookupJ [(JValue.str "a", JValue.obj [("eventID", JValue.str "a"), ("n", JValue.num 2)]),
             (JValue.str "b", JValue.obj [("eventID", JValue.str "b")])] (JValue.str "a") =
      (([JValue.obj [("eventID", JValue.str "a"), ("n", JValue.num 1)],
         JValue.obj [("eventID", JValue.str "b")],
         JValue.obj [("eventID", JValue.str "a"), ("n", JValue.num 2)]].filter
           (keyMatches (JValue.str "a"))).getLast?) ∧
    (2 : Nat) + 1 = 3 := by
  have h := dedup_correctness
      [[JValue.obj [("eventID", JValue.str "a"), ("n", JValue.num 1)],
        JValue.obj [("eventID", JValue.str "b")]],
       [JValue.obj [("eventID", JValue.str "a"), ("n", JValue.num 2)]]]
      [(JValue.str "a", JValue.obj [("eventID", JValue.str "a"), ("n", JValue.num 2)]),
       (JValue.str "b", JValue.obj [("eventID", JValue.str "b")])]
      3 2 1 rfl rfl
  exact ⟨h.2.1 (JValue.str "a"), h.2.2.1⟩

/-- C2: Output ordering of aggregation.  The keys of the RecordIndex are
the event identifiers in order of their first occurrence in the decoded
record sequence, and each entry's value is the last record with that
identifier — so the value sequence handed to the Normalizer
(`recordsOut`, i.e. `list(all_records.values())`) lists each identifier at
its first-occurrence position while carrying the last-written record. -/
theorem aggregation_output_order (files : List (List JValue))
    (d : List (JValue × JValue)) (total unique dups : Nat)
    (hks : files.flatten.all hasStrKey = true)
    (h : read_files_from_directory files = some (d, total, unique, dups)) :
    d.map Prod.fst = firstKeys (recordKeys files.flatten) ∧
    recordsOut d = d.map Prod.snd ∧
    (∀ p ∈ d, some p.2 = (files.flatten.filter (keyMatches p.1)).getLast?) := by
  unfold read_files_from_directory at h
  rw [aggFiles_eq_join] at h
  cases hpr : processRecords [] files.flatten with
  | none => rw [hpr] at h; exact absurd h (by simp)
  | some d2 =>
    rw [hpr] at h
    simp only [Option.map_some', Option.some.injEq, Prod.mk.injEq] at h
    obtain ⟨rfl, htot, huni, hdup⟩ := h
    have hstr := allStrIndex_processRecords files.flatten [] d2 rfl hks hpr
    have hpair := pairwise_keys_processRecords files.flatten [] d2 (by simp) hpr
    refine ⟨?_, rfl, ?_⟩
    · have := map_fst_processRecords files.flatten [] d2 hpr
      rw [this]
      rfl
    · intro p hmem
      have h1 := lookupJ_self d2 hstr hpair p hmem
      have h2 := lookupJ_processRecords files.flatten [] d2 p.1 rfl hks hpr
      rw [h1, lookupJ_nil, Option.or_none] at h2
      exact h2

/-- Witness for C2 at a concrete input: with identifiers seen in the order
a, b, a, the index keys are `[a, b]` (first-occurrence order). -/
theorem aggregation_output_order_witness :
    [(JValue.str "a", JValue.obj [("eventID", JValue.str "a"), ("n", JValue.num 2)]),
     (JValue.str "b", JValue.obj [("eventID", JValue.str "b")])].map Prod.fst =
      firstKeys (recordKeys
        [JValue.obj [("eventID", JValue.str "a"), ("n", JValue.num 1)],
         JValue.obj [("eventID", JValue.str "b")],
         JValue.obj [("eventID", JValue.str "a"), ("n", JValue.num 2)]]) := by
  have h := aggregation_output_order
      [[JValue.obj [("eventID", JValue.str "a"), ("n", JValue.num 1)],
        JValue.obj [("eventID", JValue.str "b")]],
       [JValue.obj [("eventID", JValue.str "a"), ("n", JValue.num 2)]]]
      [(JValue.str "a", JValue.obj [("eventID", JValue.str "a"), ("n", JValue.num 2)]),
       (JValue.str "b", JValue.obj [("eventID", JValue.str "b")])]
      3 2 1 rfl rfl
  exact h.1

/-! ### Lemmas about the chunked writer -/

theorem chunkFiles_nil (mult : Bool) (base : String) (i : Nat) :
    chunkFiles mult base i [] = [] := by
  simp [chunkFiles]

theorem chunkFiles_cons (mult : Bool) (base : String) (i : Nat) (ev : JValue)
    (evs : List JValue) :
    chunkFiles mult base i (ev :: evs) =
      (chunkName mult base i, ((ev :: evs).take 500000).map eventLine) ::
        chunkFiles mult base (i + 1) ((ev :: evs).drop 500000) := by
  rw [chunkFiles]

theorem writeLoop_nil (mult : Bool) (base : String) (fi lc : Nat)
    (cur : Option (String × List String)) (closed : List (String × List String)) :
    writeLoop mult base fi lc cur closed [] = closed ++ cur.toList := rfl

theorem writeLoop_cons_boundary (mult : Bool) (base : String) (fi lc : Nat)
    (cur : Option (String × List String)) (closed : List (String × List String))
    (ev : JValue) (evs : List JValue) (hlc : lc % 500000 = 0) :
    writeLoop mult base fi lc cur closed (ev :: evs) =
      writeLoop mult base (fi + 1) (lc + 1)
        (some (chunkName mult base (fi + 1), [eventLine ev])) (closed ++ cur.toList) evs := by
  simp [writeLoop, hlc, chunkName]

theorem writeLoop_cons_mid (mult : Bool) (base : String) (fi lc : Nat) (name : String)
    (ls : List String) (closed : List (String × List String)) (ev : JValue)
    (evs : List JValue) (hlc : ¬ lc % 500000 = 0) :
    writeLoop mult base fi lc (some (name, ls)) closed (ev :: evs) =
      writeLoop mult base fi (lc + 1) (some (name, ls ++ [eventLine ev])) closed evs := by
  simp [writeLoop, hlc]

theorem writeLoop_spec (evs : List JValue) :
    (∀ (mult : Bool) (base : String) (fi lc : Nat) (cur : Option (String × List String))
        (closed : List (String × List String)), lc % 500000 = 0 →
      writeLoop mult base fi lc cur closed evs =
        closed ++ cur.toList ++ chunkFiles mult base (fi + 1) evs) ∧
    (∀ (mult : Bool) (base : String) (fi lc : Nat) (name : String) (ls : List String)
        (closed : List (String × List String)), ¬ lc % 500000 = 0 →
      writeLoop mult base fi lc (some (name, ls)) closed evs =
        closed ++ ((name, ls ++ (evs.take (500000 - lc % 500000)).map eventLine) ::
          chunkFiles mult base (fi + 1) (evs.drop (500000 - lc % 500000)))) := by
  induction evs with
  | nil =>
    constructor
    · intro mult base fi lc cur closed hlc
      rw [writeLoop_nil, chunkFiles_nil, List.append_nil]
    · intro mult base fi lc name ls closed hlc
      rw [writeLoop_nil]
      simp [chunkFiles_nil]
  | cons ev evs ih =>
    obtain ⟨ihB, ihM⟩ := ih
    constructor
    · intro mult base fi lc cur closed hlc
      have h1 : (lc + 1) % 500000 = 1 := by omega
      rw [writeLoop_cons_boundary mult base fi lc cur closed ev evs hlc]
      rw [ihM mult base (fi + 1) (lc + 1) _ _ _ (by omega)]
      rw [h1, chunkFiles_cons]
      rw [show (500000 : Nat) - 1 = 499999 from rfl]
      rw [show (500000 : Nat) = 499999 + 1 from rfl, List.take_succ_cons, List.drop_succ_cons]
      simp [List.append_assoc]
    · intro mult base fi lc name ls closed hlc
      rw [writeLoop_cons_mid mult base fi lc name ls closed ev evs hlc]
      by_cases hnext : (lc + 1) % 500000 = 0
      · rw [ihB mult base fi (lc + 1) _ _ hnext]
        have ht : 500000 - lc % 500000 = 1 := by omega
        rw [ht]
        simp
      · rw [ihM mult base fi (lc + 1) _ _ _ hnext]
        have h3 : 500000 - lc % 500000 = (500000 - (lc + 1) % 500000) + 1 := by omega
        rw [h3, List.take_succ_cons, List.drop_succ_cons]
        simp [List.append_assoc]

theorem write_events_eq_chunks (events : List JValue) (path : String)
    (hdir : ¬ osPathDirname path = "") :
    write_events_to_jsonl events path =
      some (chunkFiles (decide (events.length > 500000)) path 1 events) := by
  unfold write_events_to_jsonl
  rw [if_neg hdir]
  have h := (writeLoop_spec events).1 (decide (events.length > 500000)) path 0 0 none []
    (by omega)
  simpa using h

theorem chunkFiles_eq_nil_iff (mult : Bool) (base : String) (i : Nat) (l : List JValue) :
    chunkFiles mult base i l = [] ↔ l = [] := by
  cases l with
  | nil => simp [chunkFiles_nil]
  | cons ev evs => rw [chunkFiles_cons]; simp

theorem chunkFiles_mem_len (n : Nat) : ∀ (l : List JValue), l.length ≤ n →
    ∀ (mult : Bool) (base : String) (i : Nat) (f : String × List String),
      f ∈ chunkFiles mult base i l → 1 ≤ f.2.length ∧ f.2.length ≤ 500000 := by
  induction n with
  | zero =>
    intro l hl mult base i f hf
    have hnil : l = [] := List.length_eq_zero.mp (Nat.le_zero.mp hl)
    subst hnil
    rw [chunkFiles_nil] at hf
    exact absurd hf (by simp)
  | succ n ih =>
    intro l hl mult base i f hf
    cases l with
    | nil => rw [chunkFiles_nil] at hf; exact absurd hf (by simp)
    | cons ev evs =>
      rw [chunkFiles_cons] at hf
      simp only [List.length_cons] at hl
      rcases List.mem_cons.mp hf with rfl | hf2
      · simp only [List.length_map, List.length_take, List.length_cons]
        omega
      · have hrec : ((ev :: evs).drop 500000).length ≤ n := by
          simp only [List.length_drop, List.length_cons]
          omega
        exact ih ((ev :: evs).drop 500000) hrec mult base (i + 1) f hf2

theorem chunkFiles_length_eq (n : Nat) : ∀ (l : List JValue), l.length ≤ n →
    ∀ (mult : Bool) (base : String) (i : Nat),
      (chunkFiles mult base i l).length = (l.length + 499999) / 500000 := by
  induction n with
  | zero =>
    intro l hl mult base i
    have hnil : l = [] := List.length_eq_zero.mp (Nat.le_zero.mp hl)
    subst hnil
    rw [chunkFiles_nil]
    rfl
  | succ n ih =>
    intro l hl mult base i
    cases l with
    | nil => rw [chunkFiles_nil]; rfl
    | cons ev evs =>
      simp only [List.length_cons] at hl
      have hrec : ((ev :: evs).drop 500000).length ≤ n := by
        simp only [List.length_drop, List.length_cons]
        omega
      rw [chunkFiles_cons, List.length_cons, ih ((ev :: evs).drop 500000) hrec mult base (i + 1)]
      simp only [List.length_drop, List.length_cons]
      omega

theorem chunkFiles_get (n : Nat) : ∀ (l : List JValue), l.length ≤ n →
    ∀ (mult : Bool) (base : String) (i j : Nat)
      (hj : j < (chunkFiles mult base i l).length),
      (chunkFiles mult base i l).get ⟨j, hj⟩ =
        (chunkName mult base (i + j),
          ((l.drop (500000 * j)).take 500000).map eventLine) := by
  induction n with
  | zero =>
    intro l hl mult base i j hj
    have hnil : l = [] := List.length_eq_zero.mp (Nat.le_zero.mp hl)
    subst hnil
    rw [chunkFiles_nil] at hj
    exact absurd hj (by simp)
  | succ n ih =>
    intro l hl mult base i j hj
    cases l with
    | nil => rw [chunkFiles_nil] at hj; exact absurd hj (by simp)
    | cons ev evs =>
      cases j with
      | zero =>
        have hc := chunkFiles_cons mult base i ev evs
        have hzero : (chunkFiles mult base i (ev :: evs)).get ⟨0, hj⟩ =
            (chunkName mult base i, ((ev :: evs).take 500000).map eventLine) := by
          rw [List.get_of_eq hc]
          rfl
        rw [hzero]
        simp
      | succ j =>
        simp only [List.length_cons] at hl
        have hc := chunkFiles_cons mult base i ev evs
        have hlen : (chunkFiles mult base i (ev :: evs)).length =
            (chunkFiles mult base (i + 1) ((ev :: evs).drop 500000)).length + 1 := by
          rw [hc, List.length_cons]
        have hj2 : j < (chunkFiles mult base (i + 1) ((ev :: evs).drop 500000)).length := by
          omega
        have hget : (chunkFiles mult base i (ev :: evs)).get ⟨j + 1, hj⟩ =
            (chunkFiles mult base (i + 1) ((ev :: evs).drop 500000)).get ⟨j, hj2⟩ := by
          rw [List.get_of_eq hc]
          rfl
        have hrec : ((ev :: evs).drop 500000).length ≤ n := by
          simp only [List.length_drop, List.length_cons]
          omega
        rw [hget, ih ((ev :: evs).drop 500000) hrec mult base (i + 1) j hj2]
        rw [List.drop_drop]
        have harith : 500000 + 500000 * j = 500000 * (j + 1) := by ring
        have hidx : i + 1 + j = i + (j + 1) := by omega
        rw [harith, hidx]

/-! ### Claim theorems: chunked writer (C3, C9, C10) -/

theorem chunkName_true_eq (base : String) (i : Nat) :
    chunkName true base i = base ++ ("_part" ++ toString i) := by
  rw [chunkName]
  simp [String.append_assoc]

/-- C3 (amended): Writer file layout.  For output paths with a directory
component: with more than 500000 events the writer emits `ceil(n/500000)`
files named `_part1`, `_part2`, … (1-indexed), each holding between 1 and
500000 lines — in particular exactly 1000000 events give exactly `_part1`
and `_part2` with 500000 lines each and no third file; with `1 ≤ n ≤
500000` events it emits a single file at the exact given path holding
exactly `n` lines; and — the amendment — with `n = 0` events it emits no
file at all rather than an empty file at the given path. -/
theorem writer_file_layout (events : List JValue) (path : String)
    (hdir : ¬ osPathDirname path = "") :
    (events.length = 1000000 →
      ∃ l1 l2, write_events_to_jsonl events path =
          some [(path ++ "_part1", l1), (path ++ "_part2", l2)] ∧
        l1.length = 500000 ∧ l2.length = 500000) ∧
    (1 ≤ events.length → events.length ≤ 500000 →
      write_events_to_jsonl events path = some [(path, events.map eventLine)] ∧
      (events.map eventLine).length = events.length) ∧
    (events.length > 500000 →
      ∃ fs, write_events_to_jsonl events path = some fs ∧
        fs.length = (events.length + 499999) / 500000 ∧
        (∀ (j : Nat) (hj : j < fs.length),
          (fs.get ⟨j, hj⟩).1 = path ++ "_part" ++ toString (j + 1)) ∧
        (∀ f ∈ fs, 1 ≤ f.2.length ∧ f.2.length ≤ 500000)) ∧
    (events.length = 0 → write_events_to_jsonl events path = some []) := by
  have hchunks := write_events_eq_chunks events path hdir
  refine ⟨?_, ?_, ?_, ?_⟩
  · intro hn
    have hmult : decide (events.length > 500000) = true := by
      rw [hn]; rfl
    rw [hmult] at hchunks
    cases events with
    | nil => simp at hn
    | cons ev evs =>
      simp only [List.length_cons] at hn
      rw [chunkFiles_cons] at hchunks
      have hd1 : ((ev :: evs).drop 500000).length = 500000 := by
        simp only [List.length_drop, List.length_cons]
        omega
      obtain ⟨ev2, evs2, hd⟩ : ∃ a t, (ev :: evs).drop 500000 = a :: t := by
        cases hcc : (ev :: evs).drop 500000 with
        | nil => rw [hcc] at hd1; simp at hd1
        | cons a t => exact ⟨a, t, rfl⟩
      rw [hd, chunkFiles_cons] at hchunks
      have hd2 : (ev2 :: evs2).drop 500000 = [] := by
        have : (ev2 :: evs2).length = 500000 := by rw [← hd]; exact hd1
        refine List.drop_eq_nil_of_le ?_
        omega
      rw [hd2, chunkFiles_nil] at hchunks
      refine ⟨((ev :: evs).take 500000).map eventLine,
        ((ev2 :: evs2).take 500000).map eventLine, ?_, ?_, ?_⟩
      · rw [hchunks, chunkName_true_eq, chunkName_true_eq]
        rfl
      · simp only [List.length_map, List.length_take, List.length_cons]
        omega
      · have : (ev2 :: evs2).length = 500000 := by rw [← hd]; exact hd1
        simp only [List.length_map, List.length_take]
        omega
  · intro h1 h2
    have hmult : decide (events.length > 500000) = false := by
      simp only [decide_eq_false_iff_not]
      omega
    rw [hmult] at hchunks
    cases events with
    | nil => simp at h1
    | cons ev evs =>
      rw [chunkFiles_cons] at hchunks
      simp only [List.length_cons] at h2
      have htake : (ev :: evs).take 500000 = ev :: evs := by
        refine List.take_of_length_le ?_
        simp only [List.length_cons]
        omega
      have hdrop : (ev :: evs).drop 500000 = [] := by
        refine List.drop_eq_nil_of_le ?_
        simp only [List.length_cons]
        omega
      rw [htake, hdrop, chunkFiles_nil] at hchunks
      refine ⟨?_, by simp⟩
      rw [hchunks]
      rfl
  · intro hgt
    have hmult : decide (events.length > 500000) = true := by
      simp only [decide_eq_true_eq]
      omega
    rw [hmult] at hchunks
    refine ⟨chunkFiles true path 1 events, hchunks, ?_, ?_, ?_⟩
    · exact chunkFiles_length_eq events.length events le_rfl true path 1
    · intro j hj
      have := chunkFiles_get events.length events le_rfl true path 1 j hj
      rw [this]
      simp only [chunkName, if_true]
      have : 1 + j = j + 1 := by omega
      rw [this]
    · intro f hf
      exact chunkFiles_mem_len events.length events le_rfl true path 1 f hf
  · intro h0
    have hnil : events = [] := List.length_eq_zero.mp h0
    subst hnil
    rw [hchunks, chunkFiles_nil]

/-- Counterexample to C3 as frozen: for the empty event list (`n = 0`,
which falls under the claim's "otherwise, n at most 500,000" arm) and the
path `"out/f"`, the writer produces no file at all, not a single file at
the given path with 0 lines. -/
theorem writer_file_layout_counterexample :
    write_events_to_jsonl [] "out/f" = some [] ∧
    ∀ lines : List String,
      ¬ write_events_to_jsonl [] "out/f" = some [("out/f", lines)] := by
  have h0 : write_events_to_jsonl ([] : List JValue) "out/f" = some [] := by rfl
  refine ⟨h0, ?_⟩
  intro lines h
  rw [h0] at h
  simp at h

/-- Witness for C3 at concrete inputs: 1000000 events yield exactly
`_part1` and `_part2` with 500000 lines each; 10 events yield one file at
the unmodified path. -/
theorem writer_file_layout_witness :
    (∃ l1 l2, write_events_to_jsonl (List.replicate 1000000 JValue.null) "out/events" =
        some [("out/events" ++ "_part1", l1), ("out/events" ++ "_part2", l2)] ∧
      l1.length = 500000 ∧ l2.length = 500000) ∧
    write_events_to_jsonl (List.replicate 10 JValue.null) "out/small" =
      some [("out/small", (List.replicate 10 JValue.null).map eventLine)] := by
  constructor
  · exact (writer_file_layout (List.replicate 1000000 JValue.null) "out/events"
      (by decide)).1 (by rw [List.length_replicate])
  · exact ((writer_file_layout (List.replicate 10 JValue.null) "out/small"
      (by decide)).2.1 (by simp) (by simp)).1

/-- C9: called with an empty event list the writer creates no output file
at all, and conversely the first file is opened as soon as one event is
written: a successful run produces no files exactly when there were no
events. -/
theorem writer_empty_iff_no_files (events : List JValue) (path : String)
    (fs : List (String × List String))
    (h : write_events_to_jsonl events path = some fs) :
    fs = [] ↔ events = [] := by
  by_cases hdir : osPathDirname path = ""
  · unfold write_events_to_jsonl at h
    rw [if_pos hdir] at h
    exact absurd h (by simp)
  · rw [write_events_eq_chunks events path hdir] at h
    simp only [Option.some.injEq] at h
    subst h
    exact chunkFiles_eq_nil_iff _ path 1 events

/-- Witness for C9: one event produces one file, and the empty/nonempty
equivalence holds at that concrete input. -/
theorem writer_empty_iff_no_files_witness :
    ([("o/f", [eventLine JValue.null])] = ([] : List (String × List String)) ↔
      ([JValue.null] : List JValue) = []) := by
  exact writer_empty_iff_no_files [JValue.null] "o/f" [("o/f", [eventLine JValue.null])] rfl

/-- C10: the writer fails before writing anything whenever the output path
has no directory component (`os.makedirs('')` raises `FileNotFoundError`),
a bare filename (no slash) having empty dirname; with a non-empty dirname
the (idealized) directory creation succeeds and the writer completes. -/
theorem writer_dirname_requirement (events : List JValue) (path : String) :
    (osPathDirname path = "" → write_events_to_jsonl events path = none) ∧
    (¬ osPathDirname path = "" → ∃ fs, write_events_to_jsonl events path = some fs) ∧
    ((∀ c ∈ path.data, ¬ c = '/') → osPathDirname path = "") := by
  refine ⟨?_, ?_, ?_⟩
  · intro h
    unfold write_events_to_jsonl
    rw [if_pos h]
  · intro h
    exact ⟨chunkFiles (decide (events.length > 500000)) path 1 events,
      write_events_eq_chunks events path h⟩
  · intro h
    unfold osPathDirname
    have hdrop : path.data.reverse.dropWhile (fun c => c != '/') = [] := by
      rw [List.dropWhile_eq_nil_iff]
      intro c hc
      have := h c (List.mem_reverse.mp hc)
      simp [this]
    simp [hdrop]

/-- Witness for C10: a bare filename makes the writer fail, while a path
with a directory succeeds. -/
theorem writer_dirname_requirement_witness :
    write_events_to_jsonl [JValue.null] "bare.jsonl" = none ∧
    (∃ fs, write_events_to_jsonl [JValue.null] "d/x.jsonl" = some fs) := by
  constructor
  · exact (writer_dirname_requirement [JValue.null] "bare.jsonl").1
      ((writer_dirname_requirement [JValue.null] "bare.jsonl").2.2 (by decide))
  · exact (writer_dirname_requirement [JValue.null] "d/x.jsonl").2.1 (by decide)

/-! ### Lemmas about the timestamp transform -/

theorem orElse_of_isSome {α : Type} (x y : Option α) (h : x.isSome = true) : (x <|> y) = x := by
  cases x with
  | none => simp at h
  | some t => rfl

theorem toNat_digitChar {n : Nat} (h : n ≤ 9) : (Char.ofNat (48 + n)).toNat = 48 + n := by
  interval_cases n <;> decide

theorem digVal_digitChar {n : Nat} (h : n ≤ 9) : digVal (Char.ofNat (48 + n)) = n := by
  rw [digVal, toNat_digitChar h]
  omega

theorem spSec_strict (y mo d h mi sec : Nat) (hs : sec ≤ 59) (rest : List Char)
    (hk : (spZ y mo d h mi sec rest).isSome = true) :
    spSec y mo d h mi ((pad2 sec).data ++ rest) = spZ y mo d h mi sec rest := by
  interval_cases sec <;>
    (simp only [pad2, List.cons_append, List.nil_append, spSec]
     norm_num
     try exact orElse_of_isSome _ _ hk)

theorem spMin_strict (y mo d h mi : Nat) (hm : mi ≤ 59) (rest : List Char)
    (hk : (spColonSec y mo d h mi rest).isSome = true) :
    spMin y mo d h ((pad2 mi).data ++ rest) = spColonSec y mo d h mi rest := by
  interval_cases mi <;>
    (simp only [pad2, List.cons_append, List.nil_append, spMin]
     norm_num
     try exact orElse_of_isSome _ _ hk)

theorem spHour_strict (y mo d h : Nat) (hh : h ≤ 23) (rest : List Char)
    (hk : (spColonMin y mo d h rest).isSome = true) :
    spHour y mo d ((pad2 h).data ++ rest) = spColonMin y mo d h rest := by
  interval_cases h <;>
    (simp only [pad2, List.cons_append, List.nil_append, spHour]
     norm_num
     try exact orElse_of_isSome _ _ hk)

theorem spDay_strict (y mo d : Nat) (hd1 : 1 ≤ d) (hd2 : d ≤ 31) (rest : List Char)
    (hk : (spTHour y mo d rest).isSome = true) :
    spDay y mo ((pad2 d).data ++ rest) = spTHour y mo d rest := by
  interval_cases d <;>
    (simp only [pad2, List.cons_append, List.nil_append, spDay]
     norm_num
     try exact orElse_of_isSome _ _ hk)

theorem spMonth_strict (y mo : Nat) (hm1 : 1 ≤ mo) (hm2 : mo ≤ 12) (rest : List Char)
    (hk : (spDashDay y mo rest).isSome = true) :
    spMonth y ((pad2 mo).data ++ rest) = spDashDay y mo rest := by
  interval_cases mo <;>
    (simp only [pad2, List.cons_append, List.nil_append, spMonth]
     norm_num
     try exact orElse_of_isSome _ _ hk)

theorem spYear_strict (y : Nat) (hy : y ≤ 9999) (rest : List Char) :
    spYear ((pad4 y).data ++ rest) = spDashMonth y rest := by
  have h1 : (Char.ofNat (48 + y / 1000 % 10)).toNat = 48 + y / 1000 % 10 :=
    toNat_digitChar (by omega)
  have h2 : (Char.ofNat (48 + y / 100 % 10)).toNat = 48 + y / 100 % 10 :=
    toNat_digitChar (by omega)
  have h3 : (Char.ofNat (48 + y / 10 % 10)).toNat = 48 + y / 10 % 10 :=
    toNat_digitChar (by omega)
  have h4 : (Char.ofNat (48 + y % 10)).toNat = 48 + y % 10 := toNat_digitChar (by omega)
  have d1 : digVal (Char.ofNat (48 + y / 1000 % 10)) = y / 1000 % 10 :=
    digVal_digitChar (by omega)
  have d2 : digVal (Char.ofNat (48 + y / 100 % 10)) = y / 100 % 10 :=
    digVal_digitChar (by omega)
  have d3 : digVal (Char.ofNat (48 + y / 10 % 10)) = y / 10 % 10 :=
    digVal_digitChar (by omega)
  have d4 : digVal (Char.ofNat (48 + y % 10)) = y % 10 := digVal_digitChar (by omega)
  simp only [pad4, List.cons_append, List.nil_append, spYear, isDig, h1, h2, h3, h4,
    d1, d2, d3, d4]
  have hcond : (decide (48 ≤ 48 + y / 1000 % 10) && decide (48 + y / 1000 % 10 ≤ 57) &&
      (decide (48 ≤ 48 + y / 100 % 10) && decide (48 + y / 100 % 10 ≤ 57)) &&
      (decide (48 ≤ 48 + y / 10 % 10) && decide (48 + y / 10 % 10 ≤ 57)) &&
      (decide (48 ≤ 48 + y % 10) && decide (48 + y % 10 ≤ 57))) = true := by
    simp only [Bool.and_eq_true, decide_eq_true_eq]
    omega
  rw [hcond, if_pos rfl]
  have hv : 1000 * (y / 1000 % 10) + 100 * (y / 100 % 10) + 10 * (y / 10 % 10) + y % 10 = y := by
    omega
  rw [hv]

theorem daysInMonth_le (y mo : Nat) : daysInMonth y mo ≤ 31 := by
  rw [daysInMonth]
  split
  · split <;> omega
  · split <;> omega

theorem strictTimestamp_data (y mo d h mi sec : Nat) :
    (strictTimestamp y mo d h mi sec).data =
      (pad4 y).data ++ ('-' :: ((pad2 mo).data ++ ('-' :: ((pad2 d).data ++ ('T' ::
        ((pad2 h).data ++ (':' :: ((pad2 mi).data ++ (':' ::
          ((pad2 sec).data ++ ['Z'])))))))))) := by
  simp [strictTimestamp, String.data_append]

/-! ### Claim theorem: timestamp transform (C4) -/

/-- C4 (amended): Timestamp transform.  Every `eventTime` in the fixed
zero-padded format `YYYY-MM-DDTHH:MM:SSZ` (with in-range calendar fields)
is parsed as UTC and re-rendered as `YYYY-MM-DD HH:MM:SS+00:00`; any input
the `strptime` pattern cannot match fails with a `TimestampFormatError`
(`ValueError`).  The amendment: the `_strptime` regex is lenient, so some
inputs *outside* the fixed format — non-zero-padded month/day/hour/
minute/second fields and lowercase `t`/`z` literals — are also accepted
and re-rendered zero-padded, rather than failing. -/
theorem timestamp_transform (y mo d h mi sec : Nat)
    (hy1 : 1 ≤ y) (hy2 : y ≤ 9999) (hmo1 : 1 ≤ mo) (hmo2 : mo ≤ 12)
    (hd1 : 1 ≤ d) (hd2 : d ≤ daysInMonth y mo) (hh : h ≤ 23) (hmi : mi ≤ 59)
    (hsec : sec ≤ 59) :
    convert_event_time_to_local (strictTimestamp y mo d h mi sec) =
      some (renderedTimestamp y mo d h mi sec) ∧
    (∀ s, strptimeFields s = none → convert_event_time_to_local s = none) := by
  constructor
  · have hend : spZ y mo d h mi sec ['Z'] = some ⟨y, mo, d, h, mi, sec⟩ := by
      simp [spZ, litZ, spEnd]
    have hS : spSec y mo d h mi ((pad2 sec).data ++ ['Z']) = some ⟨y, mo, d, h, mi, sec⟩ := by
      rw [spSec_strict y mo d h mi sec hsec ['Z'] (by rw [hend]; rfl), hend]
    have hCS : spColonSec y mo d h mi (':' :: ((pad2 sec).data ++ ['Z'])) =
        some ⟨y, mo, d, h, mi, sec⟩ := by
      simp only [spColonSec, litColon]
      norm_num
      exact hS
    have hM : spMin y mo d h ((pad2 mi).data ++ (':' :: ((pad2 sec).data ++ ['Z']))) =
        some ⟨y, mo, d, h, mi, sec⟩ := by
      rw [spMin_strict y mo d h mi hmi _ (by rw [hCS]; rfl), hCS]
    have hCM : spColonMin y mo d h
        (':' :: ((pad2 mi).data ++ (':' :: ((pad2 sec).data ++ ['Z'])))) =
        some ⟨y, mo, d, h, mi, sec⟩ := by
      simp only [spColonMin, litColon]
      norm_num
      exact hM
    have hHr : spHour y mo d
        ((pad2 h).data ++ (':' :: ((pad2 mi).data ++ (':' :: ((pad2 sec).data ++ ['Z']))))) =
        some ⟨y, mo, d, h, mi, sec⟩ := by
      rw [spHour_strict y mo d h hh _ (by rw [hCM]; rfl), hCM]
    have hTh : spTHour y mo d
        ('T' :: ((pad2 h).data ++ (':' :: ((pad2 mi).data ++ (':' ::
          ((pad2 sec).data ++ ['Z'])))))) = some ⟨y, mo, d, h, mi, sec⟩ := by
      simp only [spTHour, litT]
      norm_num
      exact hHr
    have hD : spDay y mo
        ((pad2 d).data ++ ('T' :: ((pad2 h).data ++ (':' :: ((pad2 mi).data ++ (':' ::
          ((pad2 sec).data ++ ['Z']))))))) = some ⟨y, mo, d, h, mi, sec⟩ := by
      rw [spDay_strict y mo d hd1 (le_trans hd2 (daysInMonth_le y mo)) _
        (by rw [hTh]; rfl), hTh]
    have hDd : spDashDay y mo
        ('-' :: ((pad2 d).data ++ ('T' :: ((pad2 h).data ++ (':' :: ((pad2 mi).data ++
          (':' :: ((pad2 sec).data ++ ['Z'])))))))) = some ⟨y, mo, d, h, mi, sec⟩ := by
      simp only [spDashDay, litDash]
      norm_num
      exact hD
    have hMo : spMonth y
        ((pad2 mo).data ++ ('-' :: ((pad2 d).data ++ ('T' :: ((pad2 h).data ++ (':' ::
          ((pad2 mi).data ++ (':' :: ((pad2 sec).data ++ ['Z']))))))))) =
        some ⟨y, mo, d, h, mi, sec⟩ := by
      rw [spMonth_strict y mo hmo1 hmo2 _ (by rw [hDd]; rfl), hDd]
    have hDm : spDashMonth y
        ('-' :: ((pad2 mo).data ++ ('-' :: ((pad2 d).data ++ ('T' :: ((pad2 h).data ++
          (':' :: ((pad2 mi).data ++ (':' :: ((pad2 sec).data ++ ['Z'])))))))))) =
        some ⟨y, mo, d, h, mi, sec⟩ := by
      simp only [spDashMonth, litDash]
      norm_num
      exact hMo
    have hY : spYear ((strictTimestamp y mo d h mi sec).data) =
        some ⟨y, mo, d, h, mi, sec⟩ := by
      rw [strictTimestamp_data, spYear_strict y hy2]
      exact hDm
    rw [convert_event_time_to_local, strptimeFields, hY]
    have hvf : validFields ⟨y, mo, d, h, mi, sec⟩ = true := by
      simp only [validFields, Bool.and_eq_true, decide_eq_true_eq]
      exact ⟨⟨⟨hy1, hd1⟩, hd2⟩, hsec⟩
    simp only [Option.some_bind, hvf, if_true]
    rfl
  · intro s hnone
    rw [convert_event_time_to_local, hnone]
    rfl

/-- Counterexample to C4 as frozen: `"2024-8-12T10:15:30Z"` (single-digit
month, 19 characters) is not in the fixed format — every fixed-format
string has 20 characters — yet the code accepts it and renders
`"2024-08-12 10:15:30+00:00"` instead of failing. -/
theorem timestamp_transform_counterexample :
    convert_event_time_to_local "2024-8-12T10:15:30Z" =
      some "2024-08-12 10:15:30+00:00" ∧
    (∀ y mo d h mi sec : Nat, "2024-8-12T10:15:30Z" ≠ strictTimestamp y mo d h mi sec) := by
  constructor
  · rfl
  · intro y mo d h mi sec heq
    have h20 : (strictTimestamp y mo d h mi sec).data.length = 20 := by
      rw [strictTimestamp_data]
      simp [pad2, pad4]
    rw [← heq] at h20
    simp at h20

/-- Witness for C4 at the spec's example: `"2024-08-12T10:15:30Z"`
normalizes to `"2024-08-12 10:15:30+00:00"`. -/
theorem timestamp_transform_witness :
    convert_event_time_to_local (strictTimestamp 2024 8 12 10 15 30) =
      some (renderedTimestamp 2024 8 12 10 15 30) ∧
    strictTimestamp 2024 8 12 10 15 30 = "2024-08-12T10:15:30Z" ∧
    renderedTimestamp 2024 8 12 10 15 30 = "2024-08-12 10:15:30+00:00" := by
  refine ⟨?_, rfl, rfl⟩
  exact (timestamp_transform 2024 8 12 10 15 30 (by decide) (by decide) (by decide)
    (by decide) (by decide) (by decide) (by decide) (by decide) (by decide)).1

/-! ### Lemmas about the line decoders -/

theorem loadLines_all_some (ls : List String) (h : ∀ l ∈ ls, (jsonLoads l).isSome = true) :
    loadLines ls = some (ls.filterMap jsonLoads) := by
  induction ls with
  | nil => rfl
  | cons l ls ih =>
    have h1 := h l (by simp)
    cases hl : jsonLoads l with
    | none => rw [hl] at h1; simp at h1
    | some v =>
      simp only [loadLines, hl, List.filterMap_cons]
      rw [ih (fun x hx => h x (by simp [hx]))]
      rfl

theorem loadLines_has_none (ls : List String) (h : ∃ l ∈ ls, jsonLoads l = none) :
    loadLines ls = none := by
  induction ls with
  | nil => simp at h
  | cons l ls ih =>
    obtain ⟨x, hx, hnone⟩ := h
    rcases List.mem_cons.mp hx with rfl | hx2
    · simp [loadLines, hnone]
    · simp only [loadLines]
      cases jsonLoads l with
      | none => rfl
      | some v => rw [ih ⟨x, hx2, hnone⟩]; rfl

theorem loadLines_congr (l1 l2 : List String)
    (h : List.Forall₂ (fun a b => jsonLoads a = jsonLoads b) l1 l2) :
    loadLines l1 = loadLines l2 := by
  induction h with
  | nil => rfl
  | cons h1 h2 ih =>
    simp only [loadLines]
    rw [h1, ih]

theorem trimWsBoth_append_nl (l : List Char) : trimWsBoth (l ++ ['\n']) = trimWsBoth l := by
  unfold trimWsBoth
  rw [List.dropWhile_append]
  split
  next he =>
    rw [List.isEmpty_iff] at he
    rw [he]
    rfl
  next he =>
    rw [List.reverse_append]
    rw [show (['\n'] : List Char).reverse = ['\n'] from rfl, List.singleton_append]
    rw [show ('\n' :: (List.dropWhile isJsonWs l).reverse).dropWhile isJsonWs =
      (List.dropWhile isJsonWs l).reverse.dropWhile isJsonWs from by
        rw [List.dropWhile_cons]
        simp [isJsonWs]]

theorem jsonLoads_mk_append_nl (l : List Char) :
    jsonLoads (String.mk (l ++ ['\n'])) = jsonLoads (String.mk l) := by
  show jsonLoadsCore (trimWsBoth (l ++ ['\n'])) = jsonLoadsCore (trimWsBoth l)
  rw [trimWsBoth_append_nl]

set_option maxHeartbeats 1600000 in
theorem lines_loads_correspond (cs : List Char)
    (h : ∀ c ∈ cs, isSplitlineBreak c = true → c = '\n') :
    ∀ acc, List.Forall₂ (fun a b => jsonLoads a = jsonLoads b)
      ((pyFileLinesAux acc cs).map String.mk) ((splitlinesAux acc cs).map String.mk) := by
  induction cs with
  | nil =>
    intro acc
    rw [show pyFileLinesAux acc [] = if acc.isEmpty then [] else [acc.reverse] from rfl]
    rw [show splitlinesAux acc [] = if acc.isEmpty then [] else [acc.reverse] from rfl]
    by_cases hacc : acc.isEmpty = true
    · simp [hacc]
    · rw [if_neg hacc]
      simp only [List.map_cons, List.map_nil]
      exact List.Forall₂.cons rfl List.Forall₂.nil
  | cons c cs ih =>
    intro acc
    have hc := h c (by simp)
    have htl : ∀ x ∈ cs, isSplitlineBreak x = true → x = '\n' :=
      fun x hx => h x (by simp [hx])
    by_cases hcn : c = '\n'
    · subst hcn
      rw [show pyFileLinesAux acc ('\n' :: cs) =
          (acc.reverse ++ ['\n']) :: pyFileLinesAux [] cs from rfl]
      rw [show splitlinesAux acc ('\n' :: cs) = acc.reverse :: splitlinesAux [] cs from rfl]
      simp only [List.map_cons]
      exact List.Forall₂.cons (jsonLoads_mk_append_nl acc.reverse) (ih htl [])
    · have hcbreak : isSplitlineBreak c = false := by
        by_contra hcc
        simp only [Bool.not_eq_false] at hcc
        exact hcn (hc hcc)
      have hcr : ¬ c = '\r' := by
        intro hcr
        rw [hcr] at hcbreak
        simp [isSplitlineBreak] at hcbreak
      rw [show pyFileLinesAux acc (c :: cs) = pyFileLinesAux (c :: acc) cs from by
        rw [pyFileLinesAux.eq_def]
        have hb : (c == '\n') = false := by simp [hcn]
        simp [hb]]
      rw [show splitlinesAux acc (c :: cs) = splitlinesAux (c :: acc) cs from by
        rw [splitlinesAux.eq_def]
        split
        next heq => exact absurd heq (by simp)
        next cs2 heq =>
          rw [List.cons.injEq] at heq
          exact absurd heq.1 hcr
        next c2 cs2 hne heq =>
          rw [List.cons.injEq] at heq
          obtain ⟨rfl, rfl⟩ := heq
          rw [hcbreak]
          simp]
      exact ih htl (c :: acc)

/-! ### Claim theorems: line decoding (C5, C6) -/

/-- C5 (amended): newline-delimited decode.  `read_jsonl_file` applies
`json.loads` to EVERY line the file yields, empty lines included; when
every line parses, the result is the ordered sequence of all parsed
lines; when any line fails to parse — in particular any empty line, since
`json.loads` rejects whitespace-only input — the whole decode fails
instead of skipping the line. -/
theorem jsonl_decode (content : String) :
    ((∀ l ∈ pyFileLines content, (jsonLoads l).isSome = true) →
      read_jsonl_file content = some ((pyFileLines content).filterMap jsonLoads)) ∧
    ((∃ l ∈ pyFileLines content, jsonLoads l = none) →
      read_jsonl_file content = none) := by
  constructor
  · intro h
    exact loadLines_all_some (pyFileLines content) h
  · intro h
    exact loadLines_has_none (pyFileLines content) h

/-- Counterexample to C5 as frozen: the file content `"{}\n\n{}"` (with an
empty second line) has two non-empty lines that are valid JSON, so by the
claim it should decode to two records; the code instead fails, because
`json.loads` is applied to the empty line `"\n"` and rejects it. -/
theorem jsonl_decode_counterexample :
    read_jsonl_file "\x7b\x7d\n\n\x7b\x7d" = none ∧
    jsonLoads "\x7b\x7d\n" = some (JValue.obj []) ∧
    jsonLoads "\x7b\x7d" = some (JValue.obj []) ∧
    jsonLoads "\n" = none := by
  exact ⟨rfl, rfl, rfl, rfl⟩

/-- Witness for C5 at a concrete two-line file with no empty lines. -/
theorem jsonl_decode_witness :
    read_jsonl_file "\x7b\x7d\n\x7b\"a\": 1\x7d" =
      some ((pyFileLines "\x7b\x7d\n\x7b\"a\": 1\x7d").filterMap jsonLoads) := by
  exact (jsonl_decode "\x7b\x7d\n\x7b\"a\": 1\x7d").1 (by decide)

/-- C6 (amended): gzip equivalence.  Decoding a `.jsonl.gz` file yields
the same record sequence as decoding the uncompressed newline-delimited
file with the same text content, provided the text contains no line-break
characters other than `\n` — the amendment, needed because the gzip
branch splits with `str.splitlines`, which also breaks at `\v`, `\f`,
`\x1c`-`\x1e`, `\x85`, `U+2028` and `U+2029`, while line iteration of the
uncompressed file breaks only at `\n`. -/
theorem gz_jsonl_equivalence (name content : String)
    (hsuffix : pyEndsWith name ".jsonl.gz" = true)
    (hbreaks : content.data.all (fun c => !(isSplitlineBreak c) || c == '\n') = true) :
    read_gz_file name content = read_jsonl_file content := by
  unfold read_gz_file
  rw [if_pos hsuffix]
  unfold read_gz_jsonl read_jsonl_file pyFileLines pySplitlines
  refine (loadLines_congr _ _ ?_).symm
  refine lines_loads_correspond content.data ?_ []
  intro c hcmem hcbreak
  have := List.all_eq_true.mp hbreaks c hcmem
  rw [hcbreak] at this
  simp at this
  exact this

/-- Counterexample to C6 as frozen: the single-line content
`{"a":"x<U+2028>y"}` is valid JSON (its one `\n`-line parses), so the
claim demands equal decode results; the uncompressed `.jsonl` decode
yields the record, but the `.jsonl.gz` decode splits the line at the raw
`U+2028` inside the string value and fails. -/
theorem gz_jsonl_equivalence_counterexample :
    (∀ l ∈ pyFileLines "\x7b\"a\":\"x y\"\x7d", (jsonLoads l).isSome = true) ∧
    read_jsonl_file "\x7b\"a\":\"x y\"\x7d" =
      some [JValue.obj [("a", JValue.str "x y")]] ∧
    read_gz_file "logs.jsonl.gz" "\x7b\"a\":\"x y\"\x7d" = none := by
  exact ⟨by decide, rfl, rfl⟩

/-- Witness for C6 at a concrete two-line content free of exotic breaks. -/
theorem gz_jsonl_equivalence_witness :
    read_gz_file "a.jsonl.gz" "\x7b\"k\": 1\x7d\n\x7b\"k\": 2\x7d" =
      read_jsonl_file "\x7b\"k\": 1\x7d\n\x7b\"k\": 2\x7d" := by
  exact gz_jsonl_equivalence "a.jsonl.gz" "\x7b\"k\": 1\x7d\n\x7b\"k\": 2\x7d"
    (by decide) (by decide)

/-! ### Lemmas about normalization -/

theorem mapM_convertResource_spec (l : List JValue) (out : List (JValue × JValue))
    (h : l.mapM convertResource = some out) :
    List.Forall₂ (fun res o => ∀ kvs, res = JValue.obj kvs →
      o = (lookupD kvs "type" (JValue.str "Unknown"),
           lookupD kvs "ARN" (JValue.str "Unknown"))) l out := by
  induction l generalizing out with
  | nil =>
    simp only [List.mapM_nil, Option.pure_def, Option.some.injEq] at h
    rw [← h]
    exact List.Forall₂.nil
  | cons r rs ih =>
    rw [List.mapM_cons] at h
    cases hr : convertResource r with
    | none => rw [hr] at h; exact absurd h (by simp)
    | some o =>
      rw [hr] at h
      cases hrs : rs.mapM convertResource with
      | none => rw [hrs] at h; exact absurd h (by simp)
      | some os =>
        rw [hrs] at h
        have h3 : some (o :: os) = some out := h
        rw [Option.some.injEq] at h3
        subst h3
        refine List.Forall₂.cons ?_ (ih os hrs)
        intro kvs hkvs
        rw [hkvs] at hr
        rw [convertResource] at hr
        exact ((Option.some.injEq _ _).mp hr).symm

/-- Unpack a successful `convertRecord` into its pieces. -/
theorem convertRecord_some (record : JValue) (ev : PlasoEvent)
    (h : convertRecord record = some ev) :
    ∃ ets etLocal eid ename ro uiKvs esrc resList resPairs,
      jlookup record "eventTime" = some (JValue.str ets) ∧
      convert_event_time_to_local ets = some etLocal ∧
      jlookup record "eventID" = some eid ∧
      jlookup record "eventName" = some ename ∧
      jlookup record "readOnly" = some ro ∧
      jlookup record "userIdentity" = some (JValue.obj uiKvs) ∧
      jlookup record "eventSource" = some esrc ∧
      (jlookup record "resources").getD (JValue.arr []) = JValue.arr resList ∧
      resList.mapM convertResource = some resPairs ∧
      ev = { EventId := eid, EventName := ename,
             ReadOnly := (pyStr ro).toLower,
             AccessKeyId := lookupD uiKvs "accessKeyId" (JValue.str ""),
             EventTime := etLocal, EventSource := esrc,
             Username := lookupD uiKvs "userName" (JValue.str ""),
             Resources := resPairs,
             CloudTrailEvent := squeezeDumps record } := by
  unfold convertRecord at h
  split at h
  next ets hets =>
    split at h
    next etLocal hetl =>
      split at h
      next eid ename ro uiKvs esrc h1 h2 h3 h4 h5 =>
        split at h
        next resList hres =>
          split at h
          next resPairs hmap =>
            rw [Option.some.injEq] at h
            exact ⟨ets, etLocal, eid, ename, ro, uiKvs, esrc, resList, resPairs,
              hets, hetl, h1, h2, h3, h4, h5, hres, hmap, h.symm⟩
          next => exact absurd h (by simp)
        next => exact absurd h (by simp)
      next => exact absurd h (by simp)
    next => exact absurd h (by simp)
  next => exact absurd h (by simp)

/-! ### Claim theorems: normalization (C7, C8) -/

/-- C7: optional-field defaulting.  For every successfully normalized
record: an absent `resources` key yields `Resources = []`; a
`userIdentity` without `userName` yields `Username = ""` and one without
`accessKeyId` yields `AccessKeyId = ""`; and each entry of a present
`resources` sequence maps, in input order, to
(`type` defaulted to `"Unknown"`, `ARN` defaulted to `"Unknown"`). -/
theorem normalization_defaults (record : JValue) (ev : PlasoEvent)
    (h : convertRecord record = some ev) :
    (jlookup record "resources" = none → ev.Resources = []) ∧
    (∀ uiKvs, jlookup record "userIdentity" = some (JValue.obj uiKvs) →
      (lookupOpt uiKvs "userName" = none → ev.Username = JValue.str "") ∧
      (lookupOpt uiKvs "accessKeyId" = none → ev.AccessKeyId = JValue.str "")) ∧
    (∀ resList, jlookup record "resources" = some (JValue.arr resList) →
      List.Forall₂ (fun res o => ∀ kvs, res = JValue.obj kvs →
        o = (lookupD kvs "type" (JValue.str "Unknown"),
             lookupD kvs "ARN" (JValue.str "Unknown"))) resList ev.Resources) := by
  obtain ⟨ets, etLocal, eid, ename, ro, uiKvs, esrc, resList, resPairs,
    hets, hetl, h1, h2, h3, h4, h5, hres, hmap, hev⟩ := convertRecord_some record ev h
  subst hev
  refine ⟨?_, ?_, ?_⟩
  · intro hnone
    rw [hnone] at hres
    simp only [Option.getD_none, JValue.arr.injEq] at hres
    rw [← hres] at hmap
    simp only [List.mapM_nil, Option.pure_def, Option.some.injEq] at hmap
    simp [← hmap]
  · intro uiKvs2 hui
    rw [h4, Option.some.injEq, JValue.obj.injEq] at hui
    subst hui
    constructor
    · intro hnone
      simp [lookupD, hnone]
    · intro hnone
      simp [lookupD, hnone]
  · intro resList2 hres2
    rw [hres2] at hres
    simp only [Option.getD_some, JValue.arr.injEq] at hres
    subst hres
    exact mapM_convertResource_spec _ resPairs hmap

/-- Witness for C7: a record with no `resources` key and a `userIdentity`
lacking both `userName` and `accessKeyId` normalizes with `Resources = []`,
`Username = ""` and `AccessKeyId = ""`. -/
theorem normalization_defaults_witness :
    ∃ ev, convertRecord (JValue.obj [("eventID", JValue.str "id1"),
        ("eventTime", JValue.str "2024-08-12T10:15:30Z"),
        ("eventName", JValue.str "n"), ("readOnly", JValue.bool false),
        ("userIdentity", JValue.obj [("x", JValue.num 1)]),
        ("eventSource", JValue.str "s")]) = some ev ∧
      ev.Resources = [] ∧ ev.Username = JValue.str "" ∧
      ev.AccessKeyId = JValue.str "" := by
  obtain ⟨ev, hev⟩ : ∃ ev, convertRecord (JValue.obj [("eventID", JValue.str "id1"),
      ("eventTime", JValue.str "2024-08-12T10:15:30Z"),
      ("eventName", JValue.str "n"), ("readOnly", JValue.bool false),
      ("userIdentity", JValue.obj [("x", JValue.num 1)]),
      ("eventSource", JValue.str "s")]) = some ev := ⟨_, rfl⟩
  have hd := normalization_defaults _ ev hev
  exact ⟨ev, hev, hd.1 rfl, (hd.2.1 [("x", JValue.num 1)] rfl).1 rfl,
    (hd.2.1 [("x", JValue.num 1)] rfl).2 rfl⟩

/-- C8: `CloudTrailEvent` serialization.  For every successfully
normalized record, the `CloudTrailEvent` field is `json.dumps(record)`
with every newline, tab and space character removed — at the character
level, the dump filtered of exactly those three characters, which removes
spaces inside string values as well. -/
theorem cloudtrail_event_squeeze (record : JValue) (ev : PlasoEvent)
    (h : convertRecord record = some ev) :
    ev.CloudTrailEvent =
      removeChar (removeChar (removeChar (pyJsonDumps record) '\n') '\t') ' ' ∧
    ev.CloudTrailEvent.data = (pyJsonDumps record).data.filter
      (fun c => !(c == '\n') && !(c == '\t') && !(c == ' ')) := by
  obtain ⟨ets, etLocal, eid, ename, ro, uiKvs, esrc, resList, resPairs,
    hets, hetl, h1, h2, h3, h4, h5, hres, hmap, hev⟩ := convertRecord_some record ev h
  subst hev
  refine ⟨rfl, ?_⟩
  show (squeezeDumps record).data = _
  unfold squeezeDumps removeChar
  simp only [List.filter_filter]
  refine List.filter_congr ?_
  intro a ha
  cases h1 : (a == '\n') <;> cases h2 : (a == '\t') <;> cases h3 : (a == ' ') <;>
    simp [h1, h2, h3]

/-- Witness for C8: a record whose `eventID` is the two-word string
`"e 1"`; the squeeze removes the inner space, producing `"e1"` inside the
serialized dump. -/
theorem cloudtrail_event_squeeze_witness :
    ∃ ev, convertRecord (JValue.obj [("eventID", JValue.str "e 1"),
        ("eventTime", JValue.str "2024-08-12T10:15:30Z"),
        ("eventName", JValue.str "n"), ("readOnly", JValue.bool true),
        ("userIdentity", JValue.obj []),
        ("eventSource", JValue.str "s")]) = some ev ∧
      ev.CloudTrailEvent =
        removeChar (removeChar (removeChar (pyJsonDumps
          (JValue.obj [("eventID", JValue.str "e 1"),
            ("eventTime", JValue.str "2024-08-12T10:15:30Z"),
            ("eventName", JValue.str "n"), ("readOnly", JValue.bool true),
            ("userIdentity", JValue.obj []),
            ("eventSource", JValue.str "s")])) '\n') '\t') ' ' ∧
      ev.CloudTrailEvent =
        "\x7b\"eventID\":\"e1\",\"eventTime\":\"2024-08-12T10:15:30Z\",\"eventName\":\"n\",\"readOnly\":true,\"userIdentity\":\x7b\x7d,\"eventSource\":\"s\"\x7d" := by
  obtain ⟨ev, hev⟩ : ∃ ev, convertRecord (JValue.obj [("eventID", JValue.str "e 1"),
      ("eventTime", JValue.str "2024-08-12T10:15:30Z"),
      ("eventName", JValue.str "n"), ("readOnly", JValue.bool true),
      ("userIdentity", JValue.obj []),
      ("eventSource", JValue.str "s")]) = some ev := ⟨_, rfl⟩
  refine ⟨ev, hev, (cloudtrail_event_squeeze _ ev hev).1, ?_⟩
  rw [(cloudtrail_event_squeeze _ ev hev).1]
  rfl
